import Mathlib

/-!
Verification of the MySQL-to-PostgreSQL converter
(`mysql_to_pg_converter.py` and `extract_and_split_inserts.py`).

The Python sources are shallowly embedded below: strings are `String` /
`List Char`, the streaming loops become folds or structural recursions,
and each regular expression used by the source is hand-compiled into an
explicit matching function on character lists.
-/

namespace MPC

/-- Python `\s` / `str.strip()` whitespace, restricted to the ASCII range
(space, tab, newline, carriage return, vertical tab, form feed). -/
def isPySpace (c : Char) : Bool :=
  c = ' ' || c = '\t' || c = '\n' || c = '\r' || c = Char.ofNat 11 || c = Char.ofNat 12

/-- Python `\w` word characters, restricted to the ASCII range. -/
def isWordChar (c : Char) : Bool :=
  c.isAlphanum || c = '_'

/-- The backtick character (code 96), written via its code point. -/
def btick : Char := Char.ofNat 96

/-- Python `str.strip()`: drop leading and trailing whitespace from a char list. -/
def trimChars (l : List Char) : List Char :=
  ((l.dropWhile isPySpace).reverse.dropWhile isPySpace).reverse

/-- Python `str.strip()` on a `String`. -/
def trimPy (s : String) : String :=
  String.mk (trimChars s.data)

/-- `quote_identifier` (mysql_to_pg_converter.py line 108): wrap a name in double quotes. -/
def quote_identifier (name : String) : String :=
  "\"" ++ name ++ "\""

/-!
## The Clause Splitter: `DDLConverter._split_by_comma` (lines 211-259)

A single left-to-right scan over the text with a paren-depth counter and a
quote-state flag, splitting at commas only when the depth is zero and no
quote is open.  A doubled quote character inside a quoted region (`''` or
`""`) is consumed as a literal quote, not a terminator.

`splitScan rest consumed current depth quote` mirrors the Python loop:
`rest` is the unread input, `consumed` the characters already read (used
only to report boundary positions), `current` the clause being
accumulated, `depth` the `paren_depth` counter and `quote` the
`quote_char` state.  It returns the produced items together with, for
every comma treated as a clause boundary, the full prefix of the input
that precedes that comma.
-/

def splitScan : List Char → List Char → List Char → Int → Option Char →
    List (List Char) × List (List Char)
  | [], _, cur, _, _ => (if cur.isEmpty then [] else [cur], [])
  | c :: rest, con, cur, d, q =>
    if c = '\'' || c = '"' then
      match q with
      | none => splitScan rest (con ++ [c]) (cur ++ [c]) d (some c)
      | some qc =>
        if qc = c then
          match rest with
          | c2 :: rest2 =>
            if c2 = c then
              splitScan rest2 (con ++ [c, c]) (cur ++ [c, c]) d (some qc)
            else
              splitScan (c2 :: rest2) (con ++ [c]) (cur ++ [c]) d none
          | [] => splitScan [] (con ++ [c]) (cur ++ [c]) d none
        else splitScan rest (con ++ [c]) (cur ++ [c]) d (some qc)
    else if q.isNone then
      if c = '(' then splitScan rest (con ++ [c]) (cur ++ [c]) (d + 1) q
      else if c = ')' then splitScan rest (con ++ [c]) (cur ++ [c]) (d - 1) q
      else if c = ',' && d = 0 then
        let r := splitScan rest (con ++ [c]) [] d q
        (cur :: r.1, con :: r.2)
      else splitScan rest (con ++ [c]) (cur ++ [c]) d q
    else splitScan rest (con ++ [c]) (cur ++ [c]) d q

/-- `_split_by_comma`: the list of clauses produced from the text. -/
def splitByComma (text : List Char) : List (List Char) :=
  (splitScan text [] [] 0 none).1

/-- The consumed-input prefixes at which `_split_by_comma` places a clause
boundary (each boundary is the comma immediately following such a prefix). -/
def splitBoundaries (text : List Char) : List (List Char) :=
  (splitScan text [] [] 0 none).2

/-- `_split_by_comma` on a `String`, producing `String` clauses. -/
def splitByCommaStr (s : String) : List String :=
  (splitByComma s.data).map String.mk

/-- One scanner step of the splitter's state (paren depth, open quote),
acting on a single character: quotes toggle the quote state, parens
move the depth counter only outside quotes. -/
def stepOne : Int × Option Char → Char → Int × Option Char
  | (d, q), c =>
    if c = '\'' || c = '"' then
      match q with
      | none => (d, some c)
      | some qc => if qc = c then (d, none) else (d, q)
    else if q.isNone then
      if c = '(' then (d + 1, q)
      else if c = ')' then (d - 1, q)
      else (d, q)
    else (d, q)

/-- The splitter's scan state (paren depth, open quote) after reading a prefix. -/
def scanState (l : List Char) : Int × Option Char :=
  l.foldl stepOne (0, none)

/-- Whether the scan of the remaining input, started at the given depth and
quote state, ends exactly on a clause-boundary comma (so that the final
`current` buffer is empty and no trailing item is emitted). -/
def endsTop : List Char → Int → Option Char → Bool
  | [], _, _ => false
  | c :: rest, d, q =>
    if c = '\'' || c = '"' then
      match q with
      | none => endsTop rest d (some c)
      | some qc =>
        if qc = c then
          match rest with
          | c2 :: rest2 =>
            if c2 = c then endsTop rest2 d q
            else endsTop (c2 :: rest2) d none
          | [] => false
        else endsTop rest d q
    else if q.isNone then
      if c = '(' then endsTop rest (d + 1) q
      else if c = ')' then endsTop rest (d - 1) q
      else if c = ',' && d = 0 then
        match rest with
        | [] => true
        | _ :: _ => endsTop rest d q
      else endsTop rest d q
    else endsTop rest d q

/-- Rejoin split clauses with single commas. -/
def glue : List (List Char) → List Char
  | [] => []
  | [x] => x
  | x :: y :: xs => x ++ ',' :: glue (y :: xs)

/-!
## `extract_and_split_inserts.py`: the Line Rewriter and the Chunk Writer

`InsertExtractorAndSplitter.convert_insert_line` (lines 28-65) applies an
ordered sequence of textual substitutions to one line; `process_file`
(lines 67-165) streams converted lines into byte-budgeted chunk files.
-/

/-- Python `line.rstrip('\r\n')`: drop trailing carriage-return and newline characters. -/
def rstripCRLF (l : List Char) : List Char :=
  (l.reverse.dropWhile (fun c => c = '\r' || c = '\n')).reverse

/-- Case-insensitive literal prefix matcher (one regex literal run under
`re.IGNORECASE`); returns the remainder on success. -/
def litCI : List Char → List Char → Option (List Char)
  | [], l => some l
  | _ :: _, [] => none
  | p :: ps, c :: cs => if p.toLower = c.toLower then litCI ps cs else none

/-- Regex `\s+`: require at least one whitespace character, consume the
maximal whitespace run, return the remainder. -/
def ws1 : List Char → Option (List Char)
  | [] => none
  | c :: cs => if isPySpace c then some (cs.dropWhile isPySpace) else none

/-- Regex `^\s*INSERT\s+INTO` (case-insensitive) as a prefix test
(extract_and_split_inserts.py line 38). -/
def isInsertLine (l : List Char) : Bool :=
  (do
    let r := l.dropWhile isPySpace
    let r ← litCI ("INSERT".data) r
    let r ← ws1 r
    let _ ← litCI ("INTO".data) r
    pure ()).isSome

/-- Scanner for rule 1, `re.sub` of backtick-quoted identifiers (line 42).
The second argument is the scan state: `none` while outside any backtick
pair, `some acc` right after an opening backtick with `acc` holding the
(reversed) backtick-free identifier characters read so far.  A nonempty
identifier followed by a closing backtick is emitted double-quoted; an
opening backtick that never closes (or closes immediately, which the regex
`([^`]+)` rejects) is emitted verbatim and scanning continues. -/
def subBT : List Char → Option (List Char) → List Char
  | [], none => []
  | [], some acc => btick :: acc.reverse
  | c :: cs, none =>
    if c = btick then subBT cs (some [])
    else c :: subBT cs none
  | c :: cs, some acc =>
    if c = btick then
      if acc.isEmpty then btick :: subBT cs (some [])
      else '"' :: (acc.reverse ++ '"' :: subBT cs none)
    else subBT cs (some (c :: acc))

/-- Rule 1: each backtick-delimited identifier (nonempty, no inner backtick)
becomes double-quoted; scanning is left to right and non-overlapping. -/
def subBackticks (l : List Char) : List Char :=
  subBT l none

/-- The `\b` word-boundary test before the `b` of a bit literal, given the
previously consumed source character. -/
def atBoundary : Option Char → Bool
  | none => true
  | some p => !(isWordChar p)

/-- Rule 2, `re.sub` of word-boundary-preceded bit literals (lines 45-46):
`b<q>0<q>` / `b<q>1<q>` becomes a plain single-quoted digit.  The first list
argument is the previously consumed source character (for the `\b`
lookaround). -/
def subBit (qch : Char) : Option Char → List Char → List Char
  | _, [] => []
  | prev, c :: q1 :: d0 :: q2 :: rest =>
    if c = 'b' && atBoundary prev && q1 = qch && (d0 = '0' || d0 = '1') && q2 = qch then
      '\'' :: d0 :: '\'' :: subBit qch (some qch) rest
    else c :: subBit qch (some c) (q1 :: d0 :: q2 :: rest)
  | prev, c :: cs => c :: subBit qch (some c) cs

/-- Python `str.replace` of the two-character pattern `[a, b]` by `r`,
scanning left to right, non-overlapping (rules 3, 5 and 6). -/
def replacePair (a b : Char) (r : List Char) : List Char → List Char
  | [] => []
  | [c] => [c]
  | c :: c2 :: cs =>
    if c = a && c2 = b then r ++ replacePair a b r cs
    else c :: replacePair a b r (c2 :: cs)

/-- Rule 4, `re.sub` of the unescaped null marker (line 52): a `\\N` not
preceded by a backslash becomes `NULL`; the first argument is the previously
consumed source character (the lookbehind examines the source string). -/
def subNullMarker : Option Char → List Char → List Char
  | _, [] => []
  | prev, '\\' :: 'N' :: rest =>
    if prev ≠ some '\\' then
      'N' :: 'U' :: 'L' :: 'L' :: subNullMarker (some 'N') rest
    else '\\' :: subNullMarker (some '\\') ('N' :: rest)
  | prev, c :: cs => c :: subNullMarker (some c) cs

/-- Rule 7 (lines 62-63): if the line, right-stripped, does not end with a
semicolon, append one. -/
def ensureSemi (l : List Char) : List Char :=
  let t := (l.reverse.dropWhile isPySpace).reverse
  if t.getLast? = some ';' then l else l ++ [';']

/-- `InsertExtractorAndSplitter.convert_insert_line` (lines 28-65): strip the
line terminator, keep only `INSERT INTO` lines, then apply the seven
substitution rules in their fixed order. -/
def convert_insert_line (line : String) : Option String :=
  let l := rstripCRLF line.data
  if isInsertLine l then
    some (String.mk (ensureSemi
      (replacePair '\\' '\\' ['\\']
        (replacePair '\\' '0' []
          (subNullMarker none
            (replacePair '\\' '\'' ['\'', '\'']
              (subBit '"' none
                (subBit '\'' none
                  (subBackticks l)))))))))
  else none

/-- One output chunk file: its 1-based number and the converted data
statements written into it (between the header and footer). -/
structure Chunk where
  number : Nat
  stmts : List String
deriving DecidableEq, Repr

/-- The streaming state of `process_file`: already finalized chunks, the
currently open chunk, its accumulated byte size (`current_chunk_size`) and
the running statement count (`total_inserts`). -/
structure PFState where
  done : List Chunk
  cur : Chunk
  curSize : Nat
  total : Nat
deriving DecidableEq, Repr

/-- `len(converted_line.encode('utf-8')) + 1` (line 118): the statement's
UTF-8 byte length plus one byte for the appended newline. -/
def lineBytes (s : String) : Nat :=
  s.utf8ByteSize + 1

/-- The state of `process_file` before the loop: no finalized chunk, chunk
number 1 open and empty (lines 86-94). -/
def pfInit : PFState :=
  ⟨[], ⟨1, []⟩, 0, 0⟩

/-- One iteration of the `process_file` loop (lines 99-138): convert the
line; if it is an INSERT statement, finalize the current chunk and open the
next one when appending would exceed the byte budget and the current chunk
is nonempty, then write the statement into the open chunk. -/
def pfStep (budget : Nat) (st : PFState) (line : String) : PFState :=
  match convert_insert_line line with
  | none => st
  | some conv =>
    let lb := lineBytes conv
    if budget < st.curSize + lb ∧ 0 < st.curSize then
      { done := st.done ++ [st.cur]
        cur := ⟨st.cur.number + 1, [conv]⟩
        curSize := lb
        total := st.total + 1 }
    else
      { done := st.done
        cur := ⟨st.cur.number, st.cur.stmts ++ [conv]⟩
        curSize := st.curSize + lb
        total := st.total + 1 }

/-- The result of `process_file`: the produced chunk files in order (the
`finally` block always finalizes the currently open chunk, lines 149-156),
the reported number of files (`chunk_number`) and the reported statement
count (`total_inserts`). -/
structure PFResult where
  chunks : List Chunk
  files : Nat
  totalInserts : Nat
deriving DecidableEq, Repr

/-- `InsertExtractorAndSplitter.process_file` (lines 67-165) over the input
lines, with the configured byte budget (`chunk_size_bytes`). -/
def process_file (budget : Nat) (lines : List String) : PFResult :=
  let st := lines.foldl (pfStep budget) pfInit
  ⟨st.done ++ [st.cur], st.cur.number, st.total⟩

/-- The header written at the top of every chunk file by `_write_header`
(lines 167-187); `ts` stands for the timestamp the script interpolates. -/
def headerText (chunkNum : Nat) (ts : String) : String :=
  "-- PostgreSQL INSERT语句 - Part " ++ toString chunkNum ++ "\n" ++
  "-- 从MySQL dump转换而来\n" ++
  "-- 生成时间: " ++ ts ++ "\n" ++
  "--\n" ++
  "-- 注意: 请确保表结构已经创建\n" ++
  "--\n\n" ++
  "-- 错误处理：遇到错误时继续执行后续语句\n" ++
  "\\set ON_ERROR_STOP off\n\n" ++
  "-- 设置会话为复制模式（禁用触发器和约束检查）\n" ++
  "SET session_replication_role = 'replica';\n\n" ++
  "-- 性能优化设置\n" ++
  "SET synchronous_commit = OFF;\n" ++
  "SET maintenance_work_mem = '256MB';\n\n"

/-- The footer written at the bottom of every chunk file by `_write_footer`
(lines 189-192), restoring the normal integrity-checking session state. -/
def footerText : String :=
  "\n-- 恢复会话设置\n" ++
  "SET session_replication_role = 'origin';\n"

/-- The full text of one produced chunk file: header, one line per converted
statement, footer. -/
def chunkFileText (ts : String) (c : Chunk) : String :=
  headerText c.number ts ++ String.join (c.stmts.map (fun s => s ++ "\n")) ++ footerText

/-- The chunk-writer state reached, under byte budget 100, after one
59-character converted statement (60 bytes with terminator). -/
def demoChunkSt : PFState :=
  ["INSERT INTO t VALUES ('xxxxxxxxxxxxxxxxxxxxxxxxxxxxxxxxx');"].foldl (pfStep 100) pfInit

/-- A second 59-character INSERT line (60 bytes with terminator once converted). -/
def demoLine : String :=
  "INSERT INTO t VALUES ('yyyyyyyyyyyyyyyyyyyyyyyyyyyyyyyyy');"

/-!
## `mysql_to_pg_converter.py`: the Type Mapper, Column Converter,
Constraint Extractor and Statement Assembler

Each regular expression used by the source is hand-compiled into an
explicit matching function on character lists; `search` loops try the
match at every start position, left to right.
-/

/-- Regex `\s*`: consume any whitespace run. -/
def wsStar (l : List Char) : List Char :=
  l.dropWhile isPySpace

/-- Regex `\w+`: a nonempty maximal word-character run, returned with the remainder. -/
def word1 : List Char → Option (List Char × List Char) :=
  fun l =>
    let w := l.takeWhile isWordChar
    if w.isEmpty then none else some (w, l.drop w.length)

/-- Regex `\d+`: a nonempty maximal digit run, returned with the remainder. -/
def digits1 : List Char → Option (List Char × List Char) :=
  fun l =>
    let w := l.takeWhile Char.isDigit
    if w.isEmpty then none else some (w, l.drop w.length)

/-- Require one literal character, return the remainder. -/
def expectChar (c : Char) : List Char → Option (List Char)
  | [] => none
  | x :: xs => if x = c then some xs else none

/-- Regex `[`"]?`: consume one optional backtick or double quote. -/
def optQuote : List Char → List Char
  | [] => []
  | c :: cs => if c = btick || c = '"' then cs else c :: cs

/-- Regex `\(([^)]+)\)`: a parenthesized nonempty run of non-`)` characters;
returns the captured run and the remainder after the closing paren. -/
def parenGroupNE : List Char → Option (List Char × List Char)
  | '(' :: cs =>
    let t := cs.takeWhile (fun x => x != ')')
    if t.isEmpty then none
    else
      match cs.drop t.length with
      | ')' :: rest => some (t, rest)
      | _ => none
  | _ => none

/-- `re.search`: try an anchored matcher at every start position, left to right. -/
def searchO {α : Type} (f : List Char → Option α) : List Char → Option α
  | [] => f []
  | c :: cs =>
    match f (c :: cs) with
    | some a => some a
    | none => searchO f cs

/-- `re.search` for matchers that need a `\b` lookaround: the matcher also
receives the character just before the current start position. -/
def searchB {α : Type} (f : Option Char → List Char → Option α) :
    Option Char → List Char → Option α
  | prev, [] => f prev []
  | prev, c :: cs =>
    match f prev (c :: cs) with
    | some a => some a
    | none => searchB f (some c) cs

/-- Python upper-casing (ASCII), used for the `DEFAULT` sentinel comparisons. -/
def upperStr (s : String) : String :=
  String.mk (s.data.map Char.toUpper)

/-- Python `str.replace("'", "''")`: double every single quote. -/
def escQuotes : List Char → List Char
  | [] => []
  | c :: cs => if c = '\'' then '\'' :: '\'' :: escQuotes cs else c :: escQuotes cs

/-- Python `str.strip('"')`: drop double quotes from both ends. -/
def stripDQ (s : String) : String :=
  String.mk (((s.data.dropWhile (fun c => c = '"')).reverse.dropWhile (fun c => c = '"')).reverse)

/-- Exact literal prefix matcher (case-sensitive); returns the remainder. -/
def stripLitEq : List Char → List Char → Option (List Char)
  | [], l => some l
  | _ :: _, [] => none
  | p :: ps, c :: cs => if p = c then stripLitEq ps cs else none

/-- Fueled non-overlapping substitution: at every position try the matcher
`f` (which must consume at least one character and return the remainder);
on a match the matched text is deleted, otherwise one character is kept.
The fuel (initialized to the text length) only bounds the recursion. -/
def subRemoveF (f : List Char → Option (List Char)) : Nat → List Char → List Char
  | 0, l => l
  | _ + 1, [] => []
  | fuel + 1, c :: cs =>
    match f (c :: cs) with
    | some r => subRemoveF f fuel r
    | none => c :: subRemoveF f fuel cs

/-- `re.sub(pattern, '', text)` for a matcher consuming at least one character. -/
def subRemove (f : List Char → Option (List Char)) (l : List Char) : List Char :=
  subRemoveF f l.length l

/-- Matcher for `\s+CHARACTER\s+SET\s+\w+` (line 275). -/
def tryCharSet (l : List Char) : Option (List Char) := do
  let r ← ws1 l
  let r ← litCI ("CHARACTER".data) r
  let r ← ws1 r
  let r ← litCI ("SET".data) r
  let r ← ws1 r
  let (_, r) ← word1 r
  pure r

/-- Matcher for `\s+COLLATE\s+\w+` (line 276). -/
def tryCollate (l : List Char) : Option (List Char) := do
  let r ← ws1 l
  let r ← litCI ("COLLATE".data) r
  let r ← ws1 r
  let (_, r) ← word1 r
  pure r

/-- The trailing `\s+(.+)` of the column-name regex (line 267), with the
greedy backtracking of `\s+` against `.`: the whitespace run gives back
characters until `.+` can start on a non-newline character; the capture is
the maximal non-newline run from there. -/
def findDotStart (l : List Char) : Nat → Option (List Char)
  | 0 => none
  | k + 1 =>
    match l.drop (k + 1) with
    | c :: _ =>
      if c != '\n' then some ((l.drop (k + 1)).takeWhile (fun x => x != '\n'))
      else findDotStart l k
    | [] => findDotStart l k

/-- Regex `\s+(.+)` anchored at the start of `l`; returns the `.+` capture. -/
def wsDotRest (l : List Char) : Option (List Char) :=
  let n := (l.takeWhile isPySpace).length
  if n = 0 then none else findDotStart l n

/-- The column-name regex `[`"]?(\w+)[`"]?\s+(.+)` of
`_convert_column_definition` (line 267): returns the name and the rest. -/
def colMatch (l : List Char) : Option (List Char × List Char) := do
  let (w, r) ← word1 (optQuote l)
  let g2 ← wsDotRest (optQuote r)
  pure (w, g2)

/-- Matcher for `\bNOT\s+NULL\b` (line 290), with the previous character for
the leading word boundary. -/
def tryNotNull (prev : Option Char) (l : List Char) : Option Unit := do
  guard (atBoundary prev = true)
  let r ← litCI ("NOT".data) l
  let r ← ws1 r
  let r ← litCI ("NULL".data) r
  match r with
  | [] => pure ()
  | c :: _ => if isWordChar c then none else pure ()

/-- `re.search(r'\bNOT\s+NULL\b', rest, re.IGNORECASE)` as a Boolean. -/
def searchNotNull (l : List Char) : Bool :=
  (searchB tryNotNull none l).isSome

/-- Matcher for `\bAUTO_INCREMENT\b` (line 310). -/
def tryAutoInc (prev : Option Char) (l : List Char) : Option Unit := do
  guard (atBoundary prev = true)
  let r ← litCI ("AUTO_INCREMENT".data) l
  match r with
  | [] => pure ()
  | c :: _ => if isWordChar c then none else pure ()

/-- `re.search(r'\bAUTO_INCREMENT\b', rest, re.IGNORECASE)` as a Boolean. -/
def searchAutoInc (l : List Char) : Bool :=
  (searchB tryAutoInc none l).isSome

/-- Body of a quoted `DEFAULT` value with doubled-quote escapes,
`(?:[^q]|qq)*q` after the opening quote: greedy with backtracking (an
unmatchable doubled-quote tail falls back to closing early).  Returns the
matched text (with the closing quote) and the remainder. -/
def qvBody (q : Char) : List Char → Option (List Char × List Char)
  | [] => none
  | c :: cs =>
    if c = q then
      match cs with
      | c2 :: cs2 =>
        if c2 = q then
          match qvBody q cs2 with
          | some (m, r) => some (q :: q :: m, r)
          | none => some ([q], cs)
        else some ([q], cs)
      | [] => some ([q], [])
    else
      match qvBody q cs with
      | some (m, r) => some (c :: m, r)
      | none => none

/-- A full quoted `DEFAULT` value alternative, `q(?:[^q]|qq)*q`, returned
with its quotes. -/
def quotedVal (q : Char) : List Char → Option (List Char × List Char)
  | [] => none
  | c :: cs =>
    if c = q then
      match qvBody q cs with
      | some (m, r) => some (q :: m, r)
      | none => none
    else none

/-- The bare `DEFAULT` value alternative `[^\s,]+`. -/
def nonWsCommaRun (l : List Char) : Option (List Char × List Char) :=
  let t := l.takeWhile (fun c => !(isPySpace c) && c != ',')
  if t.isEmpty then none else some (t, l.drop t.length)

/-- Matcher for `DEFAULT\s+('(?:[^']|'')*'|"(?:[^"]|"")*"|[^\s,]+)`
(line 294); returns the captured default value. -/
def tryDefault (l : List Char) : Option (List Char) := do
  let r ← litCI ("DEFAULT".data) l
  let r ← ws1 r
  match quotedVal '\'' r with
  | some (v, _) => pure v
  | none =>
    match quotedVal '"' r with
    | some (v, _) => pure v
    | none =>
      match nonWsCommaRun r with
      | some (v, _) => pure v
      | none => none

/-- The `DEFAULT` search of `_convert_column_definition`. -/
def searchDefault (l : List Char) : Option (List Char) :=
  searchO tryDefault l

/-- Matcher for `COMMENT\s+(['"])(.+?)\1` (line 325); returns the comment
text (the lazy group stops at the first matching closing quote, and cannot
cross a newline). -/
def tryComment (l : List Char) : Option (List Char) := do
  let r ← litCI ("COMMENT".data) l
  let r ← ws1 r
  match r with
  | q :: c :: cs2 =>
    if (q = '\'' || q = '"') && c != '\n' then
      let t := cs2.takeWhile (fun x => x != q && x != '\n')
      match cs2.drop t.length with
      | q2 :: _ => if q2 = q then some (c :: t) else none
      | [] => none
    else none
  | _ => none

/-- The `COMMENT` search of `_convert_column_definition`. -/
def searchComment (l : List Char) : Option (List Char) :=
  searchO tryComment l

/-- The optional parenthesized parameter part `(?:\([^)]+\))?` of the type
regex (line 280); returns the matched text (with parens) and the remainder. -/
def parenPart : List Char → Option (List Char × List Char)
  | '(' :: cs =>
    let t := cs.takeWhile (fun x => x != ')')
    if t.isEmpty then none
    else
      match cs.drop t.length with
      | ')' :: r => some ('(' :: (t ++ [')']), r)
      | _ => none
  | _ => none

/-- The optional `(?:\s+UNSIGNED)?` part of the type regex; returns the
matched source text and the remainder. -/
def tryUnsigned (l : List Char) : Option (List Char × List Char) :=
  let w := l.takeWhile isPySpace
  if w.isEmpty then none
  else
    let r := l.drop w.length
    match litCI ("UNSIGNED".data) r with
    | some r2 => some (w ++ r.take 8, r2)
    | none => none

/-- The keyword alternation of the type regex's terminator,
`NOT\s+NULL|NULL|DEFAULT|COMMENT|AUTO_INCREMENT|PRIMARY|UNIQUE|KEY`. -/
def termKw (r : List Char) : Bool :=
  (do
    let a ← litCI ("NOT".data) r
    let a ← ws1 a
    let _ ← litCI ("NULL".data) a
    pure ()).isSome
  || (litCI ("NULL".data) r).isSome
  || (litCI ("DEFAULT".data) r).isSome
  || (litCI ("COMMENT".data) r).isSome
  || (litCI ("AUTO_INCREMENT".data) r).isSome
  || (litCI ("PRIMARY".data) r).isSome
  || (litCI ("UNIQUE".data) r).isSome
  || (litCI ("KEY".data) r).isSome

/-- The terminator alternation `(?:\s+(?:...keywords...)|\s*$|,)` of the
type regex. -/
def termOK (r : List Char) : Bool :=
  (let w := r.takeWhile isPySpace
   !w.isEmpty && termKw (r.drop w.length))
  || r.all isPySpace
  || (match r with
      | ',' :: _ => true
      | _ => false)

/-- The type-token regex
`([\w]+(?:\([^)]+\))?(?:\s+UNSIGNED)?)(?:\s+(?:NOT\s+NULL|...)|\s*$|,)`
of `_convert_column_definition` (line 280): a word, an optional
parenthesized parameter list, an optional ` UNSIGNED`, then a terminator;
the two optional parts are greedy with backtracking.  Returns group 1. -/
def typeMatch (l : List Char) : Option (List Char) := do
  let (w, r0) ← word1 l
  let cands1 : List (List Char × List Char) :=
    (match parenPart r0 with
     | some (p, r1) => [(w ++ p, r1)]
     | none => []) ++ [(w, r0)]
  let cands2 : List (List Char × List Char) :=
    cands1.flatMap (fun g =>
      (match tryUnsigned g.2 with
       | some (u, r2) => [(g.1 ++ u, r2)]
       | none => []) ++ [g])
  (cands2.find? (fun g => termOK g.2)).map (fun g => g.1)

/-- `re.match(r'(decimal|numeric)\s*\(\s*(\d+)\s*,\s*(\d+)\s*\)', ...)`
(line 73): the precision-preserving special case of `convert_data_type`. -/
def decimalSpecial (t : List Char) : Option String := do
  let r ←
    match litCI ("decimal".data) t with
    | some r => some r
    | none => litCI ("numeric".data) t
  let r ← expectChar '(' (wsStar r)
  let (d1, r) ← digits1 (wsStar r)
  let r ← expectChar ',' (wsStar r)
  let (d2, r) ← digits1 (wsStar r)
  let _ ← expectChar ')' (wsStar r)
  pure ("numeric(" ++ String.mk d1 ++ "," ++ String.mk d2 ++ ")")

/-- One alternative of `(float|double)\s*\(\s*\d+\s*,\s*\d+\s*\)` (line 78). -/
def tryFloatKw (kw : String) (t : List Char) : Option Unit := do
  let r ← litCI kw.data t
  let r ← expectChar '(' (wsStar r)
  let (_, r) ← digits1 (wsStar r)
  let r ← expectChar ',' (wsStar r)
  let (_, r) ← digits1 (wsStar r)
  let _ ← expectChar ')' (wsStar r)
  pure ()

/-- The float/double-with-precision special case of `convert_data_type`
(lines 78-81). -/
def floatSpecial (t : List Char) : Option String :=
  match tryFloatKw ("float") t with
  | some _ => some ("real")
  | none =>
    match tryFloatKw ("double") t with
    | some _ => some ("double precision")
    | none => none

/-- `re.match(r"enum\((.+)\)", ...)` (line 88): the captured raw value list
(greedy `.+` reaches the last `)` of the first line). -/
def enumSpecialVals (t : List Char) : Option (List Char) :=
  match litCI ("enum(".data) t with
  | some rest =>
    let line := rest.takeWhile (fun c => c != '\n')
    let tailnc := line.reverse.takeWhile (fun c => c != ')')
    if tailnc.length = line.length then none
    else
      let p := line.length - tailnc.length - 1
      if p = 0 then none else some (line.take p)
  | none => none

/-- `re.findall(r"'([^']*)'|\"([^\"]*)\"", ...)` (line 93) with the
`v[0] or v[1]` projection (line 94): all quoted values, left to right,
non-overlapping; an opening quote with no closing quote matches nothing and
scanning resumes one character further.  The fuel (initialized to the text
length) only bounds the recursion. -/
def faqF : Nat → List Char → List String
  | 0, _ => []
  | _ + 1, [] => []
  | fuel + 1, c :: cs =>
    if c = '\'' || c = '"' then
      let t := cs.takeWhile (fun x => x != c)
      match cs.drop t.length with
      | _ :: rest => String.mk t :: faqF fuel rest
      | [] => faqF fuel cs
    else faqF fuel cs

/-- All quoted enumeration values of an `enum(...)` body. -/
def findallQuotedVals (l : List Char) : List String :=
  faqF l.length l

/-- `re.fullmatch` of a bare keyword pattern from `TYPE_MAPPING`. -/
def fmWord (kw res : String) (t : List Char) : Option String :=
  if t = kw.data then some res else none

/-- `re.fullmatch` of a `kw\(\d+\)` pattern whose replacement drops the
parameter. -/
def fmParenDigits (kw res : String) (t : List Char) : Option String := do
  let r ← stripLitEq kw.data t
  let r ← expectChar '(' r
  let (_, r) ← digits1 r
  match r with
  | [')'] => pure res
  | _ => none

/-- `re.fullmatch` of a `kw\((\d+)\)` pattern whose replacement keeps the
captured parameter, `out(\1)`. -/
def fmParenDigitsKeep (kw out : String) (t : List Char) : Option String := do
  let r ← stripLitEq kw.data t
  let r ← expectChar '(' r
  let (d, r) ← digits1 r
  match r with
  | [')'] => pure (out ++ "(" ++ String.mk d ++ ")")
  | _ => none

/-- `re.fullmatch` of a `kw\((\d+),(\d+)\)` pattern with a two-group
replacement. -/
def fmTwoDigits (kw : String) (mk2 : String → String → String) (t : List Char) :
    Option String := do
  let r ← stripLitEq kw.data t
  let r ← expectChar '(' r
  let (d1, r) ← digits1 r
  let r ← expectChar ',' r
  let (d2, r) ← digits1 r
  match r with
  | [')'] => pure (mk2 (String.mk d1) (String.mk d2))
  | _ => none

/-- `re.fullmatch` of a `kw\(.+\)` pattern (the greedy `.+` may contain `)`
but no newline; the final character must be the closing paren). -/
def fmDotPlusParen (kw res : String) (t : List Char) : Option String := do
  let r ← stripLitEq (kw ++ "(").data t
  match r.getLast? with
  | some ')' =>
    if r.dropLast ≠ [] ∧ (r.dropLast).all (fun c => c != '\n') then some res else none
  | _ => none

/-- The ordered `TYPE_MAPPING` table (mysql_to_pg_converter.py lines 14-66)
as an explicit ordered list of full-match patterns, in the source's
insertion order (parameterized forms before bare forms). -/
def typeTable : List (List Char → Option String) :=
  [fmParenDigits ("tinyint") ("smallint"),
   fmParenDigits ("smallint") ("smallint"),
   fmParenDigits ("mediumint") ("integer"),
   fmParenDigits ("int") ("integer"),
   fmParenDigits ("integer") ("integer"),
   fmParenDigits ("bigint") ("bigint"),
   fmTwoDigits ("decimal") (fun a b => "numeric(" ++ a ++ "," ++ b ++ ")"),
   fmTwoDigits ("numeric") (fun a b => "numeric(" ++ a ++ "," ++ b ++ ")"),
   fmTwoDigits ("float") (fun _ _ => "real"),
   fmWord ("bit(1)") ("boolean"),
   fmParenDigitsKeep ("bit") ("bit"),
   fmWord ("tinyint") ("smallint"),
   fmWord ("smallint") ("smallint"),
   fmWord ("mediumint") ("integer"),
   fmWord ("int") ("integer"),
   fmWord ("integer") ("integer"),
   fmWord ("bigint") ("bigint"),
   fmWord ("float") ("real"),
   fmWord ("double") ("double precision"),
   fmWord ("real") ("real"),
   fmParenDigitsKeep ("datetime") ("timestamp"),
   fmWord ("datetime") ("timestamp"),
   fmParenDigitsKeep ("timestamp") ("timestamp"),
   fmWord ("timestamp") ("timestamp"),
   fmWord ("date") ("date"),
   fmParenDigitsKeep ("time") ("time"),
   fmWord ("time") ("time"),
   fmParenDigits ("year") ("smallint"),
   fmWord ("year") ("smallint"),
   fmParenDigitsKeep ("char") ("char"),
   fmParenDigitsKeep ("varchar") ("varchar"),
   fmParenDigits ("binary") ("bytea"),
   fmParenDigits ("varbinary") ("bytea"),
   fmWord ("tinyblob") ("bytea"),
   fmWord ("blob") ("bytea"),
   fmWord ("mediumblob") ("bytea"),
   fmWord ("longblob") ("bytea"),
   fmWord ("tinytext") ("text"),
   fmWord ("text") ("text"),
   fmWord ("mediumtext") ("text"),
   fmWord ("longtext") ("text"),
   fmWord ("json") ("jsonb"),
   fmDotPlusParen ("enum") ("varchar(255)"),
   fmDotPlusParen ("set") ("text[]")]

/-- First-match-wins evaluation of an ordered pattern list. -/
def firstSome : List (List Char → Option String) → List Char → Option String
  | [], _ => none
  | f :: fs, t =>
    match f t with
    | some r => some r
    | none => firstSome fs t

/-- The `TYPE_MAPPING` loop of `convert_data_type` (lines 101-103): the
first fully matching pattern's replacement. -/
def typeTableLookup (t : List Char) : Option String :=
  firstSome typeTable t

/-- The warning text printed for an unrecognized type (line 105). -/
def unknownTypeWarning (t : String) : String :=
  "警告: 未知数据类型 '" ++ t ++ "'，将保持原样。"

/-- `convert_data_type` (lines 68-106): lower-case and strip the token,
try the precision/enumeration special cases, then the ordered pattern
table; on no match return the token unchanged and record a warning (the
deliberate never-fail policy).  Returns the target type, the optional
enumeration value list, and the recorded warnings. -/
def convert_data_type (s : String) : String × Option (List String) × List String :=
  let t := trimChars (s.data.map Char.toLower)
  match decimalSpecial t with
  | some pg => (pg, none, [])
  | none =>
    match floatSpecial t with
    | some pg => (pg, none, [])
    | none =>
      if t = "json".data then ("jsonb", none, [])
      else
        match enumSpecialVals t with
        | some g => ("varchar(255)", some (findallQuotedVals g), [])
        | none =>
          if (stripLitEq ("set(".data) t).isSome then ("text[]", none, [])
          else
            match typeTableLookup t with
            | some pg => (pg, none, [])
            | none => (String.mk t, none, [unknownTypeWarning (String.mk t)])

/-- Python `sub in s` substring containment for character lists. -/
def containsSeq (pat : List Char) : List Char → Bool
  | [] => (stripLitEq pat []).isSome
  | c :: cs => (stripLitEq pat (c :: cs)).isSome || containsSeq pat cs

/-- The result of `_convert_column_definition` (lines 261-330): the emitted
column fragment (or `none` when the clause does not parse), plus the
sequence declarations, detached comment statements and warnings produced by
this call. -/
structure ColResult where
  colDef : Option String
  seqs : List String
  comments : List String
  warnings : List String
deriving DecidableEq, Repr

/-- `DDLConverter._convert_column_definition` (lines 261-330): parse the
clause into name and rest, strip character-set/collation modifiers, extract
the type token bounded by the first terminator keyword, resolve it through
the Type Mapper, then build the fragment in fixed field order — name, type,
`NOT NULL` if present, normalized `DEFAULT` if present; an auto-increment
marker mints a sequence, overwrites the fragment's default with a reference
to it and forces `NOT NULL`; enumeration values append a `CHECK`; a comment
is detached into a standalone `COMMENT ON COLUMN` statement. -/
def convert_column_definition (colDefStr : String) (tableName : String) : ColResult :=
  let s := trimChars colDefStr.data
  match colMatch s with
  | none => ⟨none, [], [], []⟩
  | some (nm, rest0) =>
    let colName := quote_identifier (String.mk nm)
    let rest := subRemove tryCollate (subRemove tryCharSet rest0)
    match typeMatch rest with
    | none => ⟨none, [], [], []⟩
    | some g1 =>
      let mysqlType := trimChars (subRemove (fun l => stripLitEq (" UNSIGNED".data) l) g1)
      let cdt := convert_data_type (String.mk mysqlType)
      let pgType := cdt.1
      let enumVals := cdt.2.1
      let warns := cdt.2.2
      let colDef0 := colName ++ " " ++ pgType
      let colDef1 := if searchNotNull rest then colDef0 ++ " NOT NULL" else colDef0
      let colDef2 :=
        match searchDefault rest with
        | some dv =>
          let dval := String.mk (trimChars dv)
          let dval2 :=
            if upperStr dval = "CURRENT_TIMESTAMP" then "CURRENT_TIMESTAMP"
            else if upperStr dval = "NULL" then "NULL"
            else if dval = "b'0'" || dval = "b\"0\"" then "'0'"
            else if dval = "b'1'" || dval = "b\"1\"" then "'1'"
            else dval
          colDef1 ++ " DEFAULT " ++ dval2
        | none => colDef1
      let autoInc := searchAutoInc rest
      let seqName := stripDQ tableName ++ "_" ++ stripDQ colName ++ "_seq"
      let seqs := if autoInc then ["CREATE SEQUENCE " ++ seqName ++ ";"] else []
      let colDef3 :=
        if autoInc then
          let base := colName ++ " " ++ pgType ++ " DEFAULT nextval('" ++ seqName ++ "')"
          if containsSeq ("NOT NULL".data) base.data then base else base ++ " NOT NULL"
        else colDef2
      let colDef4 :=
        match enumVals with
        | some vs =>
          if vs.isEmpty then colDef3
          else
            let escaped := vs.map (fun v => String.mk (escQuotes v.data))
            colDef3 ++ " CHECK (" ++ colName ++ " IN ('" ++
              String.intercalate ("', '") escaped ++ "'))"
        | none => colDef3
      let comments :=
        match searchComment rest with
        | some cv =>
          ["COMMENT ON COLUMN " ++ tableName ++ "." ++ colName ++ " IS '" ++
            String.mk (escQuotes cv) ++ "';"]
        | none => []
      ⟨some colDef4, seqs, comments, warns⟩

/-- The accumulating conversion context of `DDLConverter.__init__`
(lines 112-117): deduplicated sequences, indexes and comments (Python
sets, sorted at output time), order-preserving foreign keys, plus the
warnings printed along the way. -/
structure Ctx where
  sequences : List String
  indexes : List String
  comments : List String
  foreignKeys : List String
  warnings : List String
deriving DecidableEq, Repr

/-- The empty conversion context. -/
def emptyCtx : Ctx := ⟨[], [], [], [], []⟩

/-- Python `set.add`: append only when not already present. -/
def setAdd (l : List String) (x : String) : List String :=
  if x ∈ l then l else l ++ [x]

/-- Classification prefix `PRIMARY\s+KEY` (line 161). -/
def isPrimaryKeyItem (l : List Char) : Bool :=
  (do
    let r ← litCI ("PRIMARY".data) l
    let r ← ws1 r
    let _ ← litCI ("KEY".data) r
    pure ()).isSome

/-- Classification prefix `UNIQUE\s+KEY` (line 168). -/
def isUniqueKeyItem (l : List Char) : Bool :=
  (do
    let r ← litCI ("UNIQUE".data) l
    let r ← ws1 r
    let _ ← litCI ("KEY".data) r
    pure ()).isSome

/-- Classification prefix `KEY\s+` (line 176). -/
def isKeyItem (l : List Char) : Bool :=
  (do
    let r ← litCI ("KEY".data) l
    let _ ← ws1 r
    pure ()).isSome

/-- Classification prefix `CONSTRAINT` (line 184). -/
def isConstraintItem (l : List Char) : Bool :=
  (litCI ("CONSTRAINT".data) l).isSome

/-- Matcher for `PRIMARY\s+KEY\s*\(([^)]+)\)` (line 162). -/
def tryPK (l : List Char) : Option (List Char) := do
  let r ← litCI ("PRIMARY".data) l
  let r ← ws1 r
  let r ← litCI ("KEY".data) r
  let (g, _) ← parenGroupNE (wsStar r)
  pure g

/-- The primary-key column-list search. -/
def searchPK (l : List Char) : Option (List Char) :=
  searchO tryPK l

/-- Matcher for `UNIQUE\s+KEY\s+[`"]?(\w+)[`"]?\s*\(([^)]+)\)` (line 169). -/
def tryUniqueKey (l : List Char) : Option (List Char × List Char) := do
  let r ← litCI ("UNIQUE".data) l
  let r ← ws1 r
  let r ← litCI ("KEY".data) r
  let r ← ws1 r
  let (nm, r) ← word1 (optQuote r)
  let (g, _) ← parenGroupNE (wsStar (optQuote r))
  pure (nm, g)

/-- The unique-key search. -/
def searchUniqueKey (l : List Char) : Option (List Char × List Char) :=
  searchO tryUniqueKey l

/-- Matcher for `KEY\s+[`"]?(\w+)[`"]?\s*\(([^)]+)\)` (line 177). -/
def tryKey (l : List Char) : Option (List Char × List Char) := do
  let r ← litCI ("KEY".data) l
  let r ← ws1 r
  let (nm, r) ← word1 (optQuote r)
  let (g, _) ← parenGroupNE (wsStar (optQuote r))
  pure (nm, g)

/-- The plain-key search. -/
def searchKey (l : List Char) : Option (List Char × List Char) :=
  searchO tryKey l

/-- Matcher for the foreign-key constraint regex (line 185):
`CONSTRAINT\s+[`"]?(\w+)[`"]?\s+FOREIGN\s+KEY\s*\(([^)]+)\)\s+REFERENCES\s+[`"]?(\w+)[`"]?\s*\(([^)]+)\)`. -/
def tryFK (l : List Char) : Option (List Char × List Char × List Char × List Char) := do
  let r ← litCI ("CONSTRAINT".data) l
  let r ← ws1 r
  let (nm, r) ← word1 (optQuote r)
  let r ← ws1 (optQuote r)
  let r ← litCI ("FOREIGN".data) r
  let r ← ws1 r
  let r ← litCI ("KEY".data) r
  let (cols, r) ← parenGroupNE (wsStar r)
  let r ← ws1 r
  let r ← litCI ("REFERENCES".data) r
  let r ← ws1 r
  let (rt, r) ← word1 (optQuote r)
  let (rcols, _) ← parenGroupNE (wsStar (optQuote r))
  pure (nm, cols, rt, rcols)

/-- The foreign-key search. -/
def searchFK (l : List Char) : Option (List Char × List Char × List Char × List Char) :=
  searchO tryFK l

/-- The per-column cleanup `c.strip().strip('`"')` applied to each name in a
captured column list (lines 164, 172, 180, 188, 190). -/
def stripTicksDQ (l : List Char) : List Char :=
  ((l.dropWhile (fun c => c = btick || c = '"')).reverse.dropWhile
    (fun c => c = btick || c = '"')).reverse

/-- Split a captured column list on plain commas and clean each name. -/
def colsOfGroup (g : List Char) : List String :=
  (g.splitOn ',').map (fun c => String.mk (stripTicksDQ (trimChars c)))

/-- `', '.join([quote_identifier(c) for c in cols])`. -/
def joinQuotedCols (cols : List String) : String :=
  String.intercalate (", ") (cols.map quote_identifier)

/-- The per-table accumulator of `convert_create_table`: the column
fragments in order and the (last-assigned) primary-key definition. -/
structure TableAcc where
  colDefs : List String
  pk : Option String
deriving DecidableEq, Repr

/-- One iteration of the clause loop of `convert_create_table`
(lines 155-199): strip the clause, skip it when empty, classify it by
leading keyword (primary key / unique key / key / constraint) and otherwise
treat it as a column definition; a keyword clause whose inner extraction
fails, or a column clause that does not parse, leaves everything unchanged
(the clause is dropped and processing continues). -/
def processItem (tableName : String) (acc : TableAcc × Ctx) (item : String) : TableAcc × Ctx :=
  let it := trimChars item.data
  if it.isEmpty then acc
  else if isPrimaryKeyItem it then
    match searchPK it with
    | some g =>
      ({ acc.1 with pk := some ("PRIMARY KEY (" ++ joinQuotedCols (colsOfGroup g) ++ ")") },
        acc.2)
    | none => acc
  else if isUniqueKeyItem it then
    match searchUniqueKey it with
    | some (nm, g) =>
      (acc.1,
        { acc.2 with indexes := (setAdd acc.2.indexes
            ("CREATE UNIQUE INDEX " ++ quote_identifier (String.mk nm) ++ " ON " ++
              tableName ++ " (" ++ joinQuotedCols (colsOfGroup g) ++ ");")) })
    | none => acc
  else if isKeyItem it then
    match searchKey it with
    | some (nm, g) =>
      (acc.1,
        { acc.2 with indexes := (setAdd acc.2.indexes
            ("CREATE INDEX " ++ quote_identifier (String.mk nm) ++ " ON " ++
              tableName ++ " (" ++ joinQuotedCols (colsOfGroup g) ++ ");")) })
    | none => acc
  else if isConstraintItem it then
    match searchFK it with
    | some (nm, cols, rt, rcols) =>
      (acc.1,
        { acc.2 with foreignKeys := (acc.2.foreignKeys ++
            ["ALTER TABLE " ++ tableName ++ " ADD CONSTRAINT " ++
              quote_identifier (String.mk nm) ++ " FOREIGN KEY (" ++
              joinQuotedCols (colsOfGroup cols) ++ ") REFERENCES " ++
              quote_identifier (String.mk rt) ++ " (" ++
              joinQuotedCols (colsOfGroup rcols) ++ ");"]) })
    | none => acc
  else
    let r := convert_column_definition (String.mk it) tableName
    let ctx2 := { acc.2 with
      sequences := r.seqs.foldl setAdd acc.2.sequences
      comments := r.comments.foldl setAdd acc.2.comments
      warnings := acc.2.warnings ++ r.warnings }
    match r.colDef with
    | some cd => ({ acc.1 with colDefs := acc.1.colDefs ++ [cd] }, ctx2)
    | none => (acc.1, ctx2)

/-- The table-name search of `convert_create_table` (line 125):
`CREATE\s+TABLE\s+(?:IF\s+NOT\s+EXISTS\s+)?[`"]?(\w+)[`"]?`, with the
optional `IF NOT EXISTS` group greedy but backtrackable. -/
def tryTableName (l : List Char) : Option String := do
  let r ← litCI ("CREATE".data) l
  let r ← ws1 r
  let r ← litCI ("TABLE".data) r
  let r ← ws1 r
  let withGroup : Option String := do
    let a ← litCI ("IF".data) r
    let a ← ws1 a
    let a ← litCI ("NOT".data) a
    let a ← ws1 a
    let a ← litCI ("EXISTS".data) a
    let a ← ws1 a
    let (w, _) ← word1 (optQuote a)
    pure (String.mk w)
  match withGroup with
  | some w => pure w
  | none => do
    let (w, _) ← word1 (optQuote r)
    pure (String.mk w)

/-- The table-name search over the whole statement text. -/
def searchTableName (l : List Char) : Option String :=
  searchO tryTableName l

/-- Capture the content of a balanced parenthesis group, given the text
right after the opening paren.  Modelled from the spec: the source takes
the first `sqlparse.sql.Parenthesis` token of the parsed statement and
strips its outer parens (lines 136-150); this embedding of that external
library groups from the first `(` to its matching `)` by depth counting. -/
def parenGrab : List Char → Nat → List Char → Option (List Char)
  | [], _, _ => none
  | c :: cs, d, acc =>
    if c = '(' then parenGrab cs (d + 1) (c :: acc)
    else if c = ')' then
      if d = 0 then some acc.reverse else parenGrab cs (d - 1) (c :: acc)
    else parenGrab cs d (c :: acc)

/-- The first balanced parenthesis group of a statement, outer parens
stripped (modelling `str(parenthesis)[1:-1]`, line 150). -/
def firstParenGroup (l : List Char) : Option (List Char) :=
  match l.dropWhile (fun c => c != '(') with
  | _ :: rest => parenGrab rest 0 []
  | [] => none

/-- `DDLConverter.convert_create_table` (lines 119-209): extract the table
name and the parenthesized body, split the body into clauses with the
Clause Splitter, process every clause, then assemble the `CREATE TABLE`
statement from the column fragments plus the optional inline primary key
(foreign keys are deferred into the context, not inlined). -/
def convert_create_table (stmtStr : String) (ctx : Ctx) : List String × Ctx :=
  match searchTableName stmtStr.data with
  | none => ([], ctx)
  | some tname =>
    let tableName := quote_identifier tname
    match firstParenGroup stmtStr.data with
    | none => ([], ctx)
    | some parenContent =>
      let items := splitByCommaStr (String.mk parenContent)
      let (acc, ctx2) := items.foldl (processItem tableName) (⟨[], none⟩, ctx)
      let allDefs := acc.colDefs ++ (match acc.pk with
        | some pk => [pk]
        | none => [])
      (["CREATE TABLE " ++ tableName ++ " (\n    " ++
          String.intercalate (",\n    ") allDefs ++ "\n);"], ctx2)

/-- The `SET`-statement skip of `_process_schema` (line 369): `\s*SET\s+`. -/
def isSetLine (l : List Char) : Bool :=
  (do
    let r ← litCI ("SET".data) (l.dropWhile isPySpace)
    let _ ← ws1 r
    pure ()).isSome

/-- The statement-start detection of `_process_schema` (line 374):
`\s*CREATE\s+TABLE`. -/
def isCreateTableStart (l : List Char) : Bool :=
  (do
    let r ← litCI ("CREATE".data) (l.dropWhile isPySpace)
    let r ← ws1 r
    let _ ← litCI ("TABLE".data) r
    pure ()).isSome

/-- The per-line statement gathering of `_process_schema` (lines 359-404):
skip `SET` lines; outside a statement, a `CREATE TABLE` line opens the
buffer (its own trailing `;` is not checked on that first line); inside a
statement, lines accumulate until one ends — after stripping — with `;`,
at which point the buffered statement is emitted.  Input lines carry no
line terminator; the emitted statement rejoins them with newlines.  An
unterminated trailing buffer is discarded, as in the source. -/
def gatherAux : List String → List String → Bool → List String
  | [], _, _ => []
  | line :: rest, buffer, inStmt =>
    if isSetLine line.data then gatherAux rest buffer inStmt
    else if !inStmt then
      if isCreateTableStart line.data then gatherAux rest [line] true
      else gatherAux rest buffer false
    else
      let buffer2 := buffer ++ [line]
      if (trimChars line.data).getLast? = some ';' then
        String.intercalate ("\n") buffer2 :: gatherAux rest [] false
      else gatherAux rest buffer2 true

/-- The gathered `CREATE TABLE` statements of an input, in order. -/
def gatherStatements (lines : List String) : List String :=
  gatherAux lines [] false

/-- Convert every gathered statement in order, threading the context
(lines 385-395 plus the per-statement conversion). -/
def processSchemaStmts (stmts : List String) : List String × Ctx :=
  stmts.foldl
    (fun pr st =>
      let r := convert_create_table st pr.2
      (pr.1 ++ r.1, r.2))
    ([], emptyCtx)

/-- Code-point-lexicographic comparison of character lists (Python string
ordering, used by `sorted`). -/
def charListLe : List Char → List Char → Bool
  | [], _ => true
  | _ :: _, [] => false
  | a :: as2, b :: bs =>
    if a.val < b.val then true
    else if b.val < a.val then false
    else charListLe as2 bs

/-- Python `sorted` over strings (insertion sort by code points; input lists
are duplicate-free so the order is uniquely determined). -/
def insertSorted (x : String) : List String → List String
  | [] => [x]
  | y :: ys => if charListLe x.data y.data then x :: y :: ys else y :: insertSorted x ys

/-- Sort a list of strings lexicographically (`sorted(list(...))`). -/
def sortStrs : List String → List String
  | [] => []
  | x :: xs => insertSorted x (sortStrs xs)

/-- The header comment lines of the schema output file (lines 409-414);
`ts` stands for the generation timestamp. -/
def headerSchemaLines (ts : String) : List String :=
  ["-- ===== PostgreSQL 表结构 =====",
   "-- 从MySQL转换而来",
   "-- 生成时间: " ++ ts,
   "-- ",
   "-- 注意: 此文件只包含表结构(DDL),不包含数据(INSERT)",
   "-- 数据请使用 extract_and_split_inserts.py 单独处理"]

/-- The assembled schema output of `_process_schema` (lines 406-427), as
the ordered list of written statements and section banners: header
comments, sorted sequences, table statements in encounter order, sorted
indexes, foreign keys in encounter order, sorted comments. -/
def assembledSchema (ts : String) (lines : List String) : List String :=
  let r := processSchemaStmts (gatherStatements lines)
  headerSchemaLines ts
    ++ ["-- ===== SEQUENCES ====="] ++ sortStrs r.2.sequences
    ++ ["-- ===== TABLES ====="] ++ r.1
    ++ ["-- ===== INDEXES ====="] ++ sortStrs r.2.indexes
    ++ ["-- ===== FOREIGN KEYS =====",
        "-- 外键约束在所有表创建完成后添加,避免循环依赖问题"] ++ r.2.foreignKeys
    ++ ["-- ===== COMMENTS ====="] ++ sortStrs r.2.comments

/-- Boolean string-prefix test used to classify output statements. -/
def strStartsWith (p s : String) : Bool :=
  stripLitEq p.data s.data |>.isSome

/-- The deterministic sequence name minted for an auto-increment column
(line 311): stripped table name, stripped column name, `_seq`. -/
def autoSeqName (tbl : String) (nm : List Char) : String :=
  stripDQ tbl ++ "_" ++ stripDQ (quote_identifier (String.mk nm)) ++ "_seq"

/-- The rebuilt fragment of an auto-increment column before the forced
`NOT NULL` (line 313): name, resolved type, and a default referencing the
minted sequence. -/
def autoColRaw (tbl : String) (nm g1 : List Char) : String :=
  quote_identifier (String.mk nm) ++ " " ++
    (convert_data_type (String.mk (trimChars
      (subRemove (fun l => stripLitEq (" UNSIGNED".data) l) g1)))).1 ++
    " DEFAULT nextval('" ++ autoSeqName tbl nm ++ "')"

/-- The column fragment rebuilt for an auto-increment column (lines 313-315):
`NOT NULL` is appended unless the rebuilt fragment already contains it. -/
def autoColBase (tbl : String) (nm g1 : List Char) : String :=
  if containsSeq ("NOT NULL".data) (autoColRaw tbl nm g1).data then autoColRaw tbl nm g1
  else autoColRaw tbl nm g1 ++ " NOT NULL"

/-- `p` is incompatible with every extension of `a`: the two disagree at
some position inside `a`. -/
def incompatLit : List Char → List Char → Bool
  | [], _ => false
  | _ :: _, [] => false
  | x :: xs, y :: ys => if x = y then incompatLit xs ys else true

/-- Shape invariant of the conversion context: every accumulated statement
carries its section's fixed leading keyword. -/
def CtxGood (ctx : Ctx) : Prop :=
  (∀ s ∈ ctx.sequences, ∃ r, s = "CREATE SEQUENCE " ++ r) ∧
  (∀ s ∈ ctx.indexes,
    (∃ r, s = "CREATE UNIQUE INDEX " ++ r) ∨ (∃ r, s = "CREATE INDEX " ++ r)) ∧
  (∀ s ∈ ctx.comments, ∃ r, s = "COMMENT ON COLUMN " ++ r) ∧
  (∀ s ∈ ctx.foreignKeys, ∃ r, s = "ALTER TABLE " ++ r)

/-- Two tables with mutual foreign-key references, declared in this order. -/
def fkDemoLines : List String :=
  ["CREATE TABLE `a` (",
   "  `x` int(11) NOT NULL,",
   "  `bid` int(11),",
   "  CONSTRAINT `fk_a_b` FOREIGN KEY (`bid`) REFERENCES `b` (`y`)",
   ");",
   "CREATE TABLE `b` (",
   "  `y` int(11) NOT NULL,",
   "  `aid` int(11),",
   "  CONSTRAINT `fk_b_a` FOREIGN KEY (`aid`) REFERENCES `a` (`x`)",
   ");"]

/-! ## Theorems -/

/-! ### Lemmas about the Clause Splitter -/


theorem scanState_snoc (l : List Char) (c : Char) :
    scanState (l ++ [c]) = stepOne (scanState l) c := by
  simp [scanState, List.foldl_append]

theorem splitScan_boundary_states :
    ∀ rest con cur d q,
      scanState con = (d, q) →
      ∀ pre ∈ (splitScan rest con cur d q).2,
        scanState pre = (0, none) ∧ ∃ post, con ++ rest = pre ++ ',' :: post := by
  intro rest con cur d q
  induction rest, con, cur, d, q using splitScan.induct with
  | case1 con cur d q =>
    intro _ pre hpre
    rw [splitScan.eq_def] at hpre
    simp at hpre
  | case2 c rest con cur d hq ih =>
    intro hst pre hpre
    rw [splitScan.eq_def] at hpre
    simp only [hq, if_true] at hpre
    have hst' : scanState (con ++ [c]) = (d, some c) := by
      rw [scanState_snoc, hst]
      simp [stepOne, hq]
    obtain ⟨h1, post, h2⟩ := ih hst' pre hpre
    exact ⟨h1, post, by simpa using h2⟩
  | case3 con cur d c2 rest2 hq ih =>
    intro hst pre hpre
    rw [splitScan.eq_def] at hpre
    simp only [hq, if_true] at hpre
    have hst' : scanState (con ++ [c2, c2]) = (d, some c2) := by
      have hx : con ++ [c2, c2] = (con ++ [c2]) ++ [c2] := by simp
      rw [hx, scanState_snoc, scanState_snoc, hst]
      simp [stepOne, hq]
    obtain ⟨h1, post, h2⟩ := ih hst' pre hpre
    exact ⟨h1, post, by simpa using h2⟩
  | case4 con cur d qc c2 rest2 hq hne ih =>
    intro hst pre hpre
    rw [splitScan.eq_def] at hpre
    simp only [hq, hne, if_true, if_false] at hpre
    have hst' : scanState (con ++ [qc]) = (d, none) := by
      rw [scanState_snoc, hst]
      simp [stepOne, hq]
    obtain ⟨h1, post, h2⟩ := ih hst' pre hpre
    exact ⟨h1, post, by simpa using h2⟩
  | case5 con cur d qc hq ih =>
    intro hst pre hpre
    rw [splitScan.eq_def] at hpre
    simp only [hq, if_true] at hpre
    have hst' : scanState (con ++ [qc]) = (d, none) := by
      rw [scanState_snoc, hst]
      simp [stepOne, hq]
    obtain ⟨h1, post, h2⟩ := ih hst' pre hpre
    exact ⟨h1, post, by simpa using h2⟩
  | case6 c rest con cur d hq qc hne ih =>
    intro hst pre hpre
    rw [splitScan.eq_def] at hpre
    simp only [hq, hne, if_true, if_false] at hpre
    have hst' : scanState (con ++ [c]) = (d, some qc) := by
      rw [scanState_snoc, hst]
      simp [stepOne, hq, hne]
    obtain ⟨h1, post, h2⟩ := ih hst' pre hpre
    exact ⟨h1, post, by simpa using h2⟩
  | case7 rest con cur d q hqn hnq ih =>
    intro hst pre hpre
    have hq0 : q = none := Option.isNone_iff_eq_none.mp hqn
    subst hq0
    rw [splitScan.eq_def] at hpre
    simp only [hnq, hqn, if_true, if_false] at hpre
    simp at hpre
    have hst' : scanState (con ++ ['(']) = (d + 1, none) := by
      rw [scanState_snoc, hst]
      simp [stepOne]
    obtain ⟨h1, post, h2⟩ := ih hst' pre hpre
    exact ⟨h1, post, by simpa using h2⟩
  | case8 rest con cur d q hqn hnq hne ih =>
    intro hst pre hpre
    have hq0 : q = none := Option.isNone_iff_eq_none.mp hqn
    subst hq0
    rw [splitScan.eq_def] at hpre
    simp only [hnq, hqn, hne, if_true, if_false] at hpre
    simp at hpre
    have hst' : scanState (con ++ [')']) = (d - 1, none) := by
      rw [scanState_snoc, hst]
      simp [stepOne]
    obtain ⟨h1, post, h2⟩ := ih hst' pre hpre
    exact ⟨h1, post, by simpa using h2⟩
  | case9 c rest con cur d q hnq hqn hp1 hp2 hcm ih =>
    intro hst pre hpre
    have hq0 : q = none := Option.isNone_iff_eq_none.mp hqn
    subst hq0
    have hc : c = ',' := by
      have := hcm
      simp at this
      exact this.1
    have hd : d = 0 := by
      have := hcm
      simp at this
      exact this.2
    rw [splitScan.eq_def] at hpre
    simp only [hnq, hqn, hp1, hp2, hcm, if_true, if_false] at hpre
    simp at hpre
    rcases hpre with hpre | hpre
    · subst hpre
      refine ⟨by rw [hst, hd], rest, ?_⟩
      rw [hc]
    · have hst' : scanState (con ++ [c]) = (d, none) := by
        rw [scanState_snoc, hst]
        simp [stepOne, hnq, hp1, hp2]
      obtain ⟨h1, post, h2⟩ := ih hst' pre hpre
      exact ⟨h1, post, by simpa using h2⟩
  | case10 c rest con cur d q hnq hqn hp1 hp2 hcm ih =>
    intro hst pre hpre
    have hq0 : q = none := Option.isNone_iff_eq_none.mp hqn
    subst hq0
    rw [splitScan.eq_def] at hpre
    simp only [hnq, hqn, hp1, hp2, hcm, if_true, if_false] at hpre
    have hst' : scanState (con ++ [c]) = (d, none) := by
      rw [scanState_snoc, hst]
      simp [stepOne, hnq, hp1, hp2]
    obtain ⟨h1, post, h2⟩ := ih hst' pre hpre
    exact ⟨h1, post, by simpa using h2⟩
  | case11 c rest con cur d q hnq hqs ih =>
    intro hst pre hpre
    obtain ⟨qc, hqc⟩ : ∃ qc, q = some qc := by
      cases q with
      | none => simp at hqs
      | some v => exact ⟨v, rfl⟩
    subst hqc
    rw [splitScan.eq_def] at hpre
    simp only [hnq, hqs, if_true, if_false] at hpre
    simp at hpre
    have hst' : scanState (con ++ [c]) = (d, some qc) := by
      rw [scanState_snoc, hst]
      simp [stepOne, hnq]
    obtain ⟨h1, post, h2⟩ := ih hst' pre hpre
    exact ⟨h1, post, by simpa using h2⟩

/-! Step equations for `splitScan` and `endsTop`, one per branch of the scan. -/

theorem splitScan_nil (con cur : List Char) (d : Int) (q : Option Char) :
    splitScan [] con cur d q = (if cur.isEmpty then [] else [cur], []) := by
  rw [splitScan.eq_def]

theorem splitScan_open (c : Char) (rest con cur : List Char) (d : Int)
    (hq : (c = '\'' || c = '"') = true) :
    splitScan (c :: rest) con cur d none =
      splitScan rest (con ++ [c]) (cur ++ [c]) d (some c) := by
  rw [splitScan.eq_def]
  simp [hq]

theorem splitScan_esc (c : Char) (rest2 con cur : List Char) (d : Int)
    (hq : (c = '\'' || c = '"') = true) :
    splitScan (c :: c :: rest2) con cur d (some c) =
      splitScan rest2 (con ++ [c, c]) (cur ++ [c, c]) d (some c) := by
  rw [splitScan.eq_def]
  simp [hq]

theorem splitScan_close (c c2 : Char) (rest2 con cur : List Char) (d : Int)
    (hq : (c = '\'' || c = '"') = true) (hne : c2 ≠ c) :
    splitScan (c :: c2 :: rest2) con cur d (some c) =
      splitScan (c2 :: rest2) (con ++ [c]) (cur ++ [c]) d none := by
  rw [splitScan.eq_def]
  simp [hq, hne]

theorem splitScan_close_nil (c : Char) (con cur : List Char) (d : Int)
    (hq : (c = '\'' || c = '"') = true) :
    splitScan [c] con cur d (some c) =
      splitScan [] (con ++ [c]) (cur ++ [c]) d none := by
  rw [splitScan.eq_def]
  simp [hq]

theorem splitScan_otherQuote (c qc : Char) (rest con cur : List Char) (d : Int)
    (hq : (c = '\'' || c = '"') = true) (hne : qc ≠ c) :
    splitScan (c :: rest) con cur d (some qc) =
      splitScan rest (con ++ [c]) (cur ++ [c]) d (some qc) := by
  rw [splitScan.eq_def]
  simp [hq, hne]

theorem splitScan_lparen (rest con cur : List Char) (d : Int) :
    splitScan ('(' :: rest) con cur d none =
      splitScan rest (con ++ ['(']) (cur ++ ['(']) (d + 1) none := by
  rw [splitScan.eq_def]
  simp

theorem splitScan_rparen (rest con cur : List Char) (d : Int) :
    splitScan (')' :: rest) con cur d none =
      splitScan rest (con ++ [')']) (cur ++ [')']) (d - 1) none := by
  rw [splitScan.eq_def]
  simp

theorem splitScan_comma (rest con cur : List Char) :
    splitScan (',' :: rest) con cur 0 none =
      (cur :: (splitScan rest (con ++ [',']) [] 0 none).1,
        con :: (splitScan rest (con ++ [',']) [] 0 none).2) := by
  rw [splitScan.eq_def]
  simp

theorem splitScan_other (c : Char) (rest con cur : List Char) (d : Int)
    (hnq : (c = '\'' || c = '"') = false)
    (h1 : c ≠ '(') (h2 : c ≠ ')') (h3 : (c = ',' && d = 0) = false) :
    splitScan (c :: rest) con cur d none =
      splitScan rest (con ++ [c]) (cur ++ [c]) d none := by
  rw [splitScan.eq_def]
  simp [hnq, h1, h2, h3]

theorem splitScan_inQuote (c qc : Char) (rest con cur : List Char) (d : Int)
    (hnq : (c = '\'' || c = '"') = false) :
    splitScan (c :: rest) con cur d (some qc) =
      splitScan rest (con ++ [c]) (cur ++ [c]) d (some qc) := by
  rw [splitScan.eq_def]
  simp [hnq]

theorem endsTop_nil (d : Int) (q : Option Char) : endsTop [] d q = false := by
  rw [endsTop.eq_def]

theorem endsTop_open (c : Char) (rest : List Char) (d : Int)
    (hq : (c = '\'' || c = '"') = true) :
    endsTop (c :: rest) d none = endsTop rest d (some c) := by
  rw [endsTop.eq_def]
  simp [hq]

theorem endsTop_esc (c : Char) (rest2 : List Char) (d : Int)
    (hq : (c = '\'' || c = '"') = true) :
    endsTop (c :: c :: rest2) d (some c) = endsTop rest2 d (some c) := by
  rw [endsTop.eq_def]
  simp [hq]

theorem endsTop_close (c c2 : Char) (rest2 : List Char) (d : Int)
    (hq : (c = '\'' || c = '"') = true) (hne : c2 ≠ c) :
    endsTop (c :: c2 :: rest2) d (some c) = endsTop (c2 :: rest2) d none := by
  rw [endsTop.eq_def]
  simp [hq, hne]

theorem endsTop_close_nil (c : Char) (d : Int)
    (hq : (c = '\'' || c = '"') = true) :
    endsTop [c] d (some c) = false := by
  rw [endsTop.eq_def]
  simp [hq]

theorem endsTop_otherQuote (c qc : Char) (rest : List Char) (d : Int)
    (hq : (c = '\'' || c = '"') = true) (hne : qc ≠ c) :
    endsTop (c :: rest) d (some qc) = endsTop rest d (some qc) := by
  rw [endsTop.eq_def]
  simp [hq, hne]

theorem endsTop_lparen (rest : List Char) (d : Int) :
    endsTop ('(' :: rest) d none = endsTop rest (d + 1) none := by
  rw [endsTop.eq_def]
  simp

theorem endsTop_rparen (rest : List Char) (d : Int) :
    endsTop (')' :: rest) d none = endsTop rest (d - 1) none := by
  rw [endsTop.eq_def]
  simp

theorem endsTop_comma_nil : endsTop [','] 0 none = true := by
  rw [endsTop.eq_def]
  simp

theorem endsTop_comma_cons (x : Char) (xs : List Char) :
    endsTop (',' :: x :: xs) 0 none = endsTop (x :: xs) 0 none := by
  rw [endsTop.eq_def]
  simp

theorem endsTop_other (c : Char) (rest : List Char) (d : Int)
    (hnq : (c = '\'' || c = '"') = false)
    (h1 : c ≠ '(') (h2 : c ≠ ')') (h3 : (c = ',' && d = 0) = false) :
    endsTop (c :: rest) d none = endsTop rest d none := by
  rw [endsTop.eq_def]
  rcases rest with _ | ⟨x, xs⟩ <;> simp [hnq, h1, h2, h3]

theorem endsTop_inQuote (c qc : Char) (rest : List Char) (d : Int)
    (hnq : (c = '\'' || c = '"') = false) :
    endsTop (c :: rest) d (some qc) = endsTop rest d (some qc) := by
  rw [endsTop.eq_def]
  simp [hnq]

theorem glue_cons_cons (x y : List Char) (ys : List (List Char)) :
    glue (x :: y :: ys) = x ++ ',' :: glue (y :: ys) := by
  rw [glue]

theorem splitScan_fst_ne_nil :
    ∀ rest con cur d q, cur ≠ [] ∨ rest ≠ [] → (splitScan rest con cur d q).1 ≠ [] := by
  intro rest con cur d q
  induction rest, con, cur, d, q using splitScan.induct with
  | case1 con cur d q =>
    intro h
    rcases h with h | h
    · rw [splitScan_nil]
      simp [h]
    · simp at h
  | case2 c rest con cur d hq ih =>
    intro _
    rw [splitScan_open c rest con cur d hq]
    exact ih (Or.inl (by simp))
  | case3 con cur d c2 rest2 hq ih =>
    intro _
    rw [splitScan_esc c2 rest2 con cur d hq]
    exact ih (Or.inl (by simp))
  | case4 con cur d qc c2 rest2 hq hne ih =>
    intro _
    rw [splitScan_close qc c2 rest2 con cur d hq hne]
    exact ih (Or.inl (by simp))
  | case5 con cur d qc hq ih =>
    intro _
    rw [splitScan_close_nil qc con cur d hq]
    exact ih (Or.inl (by simp))
  | case6 c rest con cur d hq qc hne ih =>
    intro _
    rw [splitScan_otherQuote c qc rest con cur d hq hne]
    exact ih (Or.inl (by simp))
  | case7 rest con cur d q hqn hnq ih =>
    intro _
    have hq0 : q = none := Option.isNone_iff_eq_none.mp hqn
    subst hq0
    rw [splitScan_lparen]
    exact ih (Or.inl (by simp))
  | case8 rest con cur d q hqn hnq hne ih =>
    intro _
    have hq0 : q = none := Option.isNone_iff_eq_none.mp hqn
    subst hq0
    rw [splitScan_rparen]
    exact ih (Or.inl (by simp))
  | case9 c rest con cur d q hnq hqn hp1 hp2 hcm ih =>
    intro _
    have hq0 : q = none := Option.isNone_iff_eq_none.mp hqn
    subst hq0
    obtain ⟨hc, hd⟩ : c = ',' ∧ d = 0 := by simpa using hcm
    subst hc hd
    rw [splitScan_comma]
    simp
  | case10 c rest con cur d q hnq hqn hp1 hp2 hcm ih =>
    intro _
    have hq0 : q = none := Option.isNone_iff_eq_none.mp hqn
    subst hq0
    rw [splitScan_other c rest con cur d (by simpa using hnq) hp1 hp2 (by simpa using hcm)]
    exact ih (Or.inl (by simp))
  | case11 c rest con cur d q hnq hqs ih =>
    intro _
    obtain ⟨qc, hqc⟩ : ∃ qc, q = some qc := by
      cases q with
      | none => simp at hqs
      | some v => exact ⟨v, rfl⟩
    subst hqc
    rw [splitScan_inQuote c qc rest con cur d (by simpa using hnq)]
    exact ih (Or.inl (by simp))

theorem glue_splitScan :
    ∀ rest con cur d q,
      glue (splitScan rest con cur d q).1 ++ (if endsTop rest d q then [','] else []) =
        cur ++ rest := by
  intro rest con cur d q
  induction rest, con, cur, d, q using splitScan.induct with
  | case1 con cur d q =>
    rw [splitScan_nil, endsTop_nil]
    by_cases h : cur = []
    · simp [h, glue]
    · simp [h, glue]
  | case2 c rest con cur d hq ih =>
    rw [splitScan_open c rest con cur d hq, endsTop_open c rest d hq, ih]
    simp
  | case3 con cur d c2 rest2 hq ih =>
    rw [splitScan_esc c2 rest2 con cur d hq, endsTop_esc c2 rest2 d hq, ih]
    simp
  | case4 con cur d qc c2 rest2 hq hne ih =>
    rw [splitScan_close qc c2 rest2 con cur d hq hne, endsTop_close qc c2 rest2 d hq hne, ih]
    simp
  | case5 con cur d qc hq ih =>
    rw [endsTop_nil] at ih
    rw [splitScan_close_nil qc con cur d hq, endsTop_close_nil qc d hq]
    simpa using ih
  | case6 c rest con cur d hq qc hne ih =>
    rw [splitScan_otherQuote c qc rest con cur d hq hne, endsTop_otherQuote c qc rest d hq hne, ih]
    simp
  | case7 rest con cur d q hqn hnq ih =>
    have hq0 : q = none := Option.isNone_iff_eq_none.mp hqn
    subst hq0
    rw [splitScan_lparen, endsTop_lparen, ih]
    simp
  | case8 rest con cur d q hqn hnq hne ih =>
    have hq0 : q = none := Option.isNone_iff_eq_none.mp hqn
    subst hq0
    rw [splitScan_rparen, endsTop_rparen, ih]
    simp
  | case9 c rest con cur d q hnq hqn hp1 hp2 hcm ih =>
    have hq0 : q = none := Option.isNone_iff_eq_none.mp hqn
    subst hq0
    obtain ⟨hc, hd⟩ : c = ',' ∧ d = 0 := by simpa using hcm
    subst hc hd
    rw [splitScan_comma]
    cases rest with
    | nil =>
      rw [splitScan_nil] at ih ⊢
      simp [glue, endsTop_comma_nil]
    | cons x xs =>
      have hne := splitScan_fst_ne_nil (x :: xs) (con ++ [',']) [] 0 none (Or.inr (by simp))
      obtain ⟨y, ys, hys⟩ : ∃ y ys, (splitScan (x :: xs) (con ++ [',']) [] 0 none).1 = y :: ys := by
        cases hv : (splitScan (x :: xs) (con ++ [',']) [] 0 none).1 with
        | nil => exact absurd hv hne
        | cons y ys => exact ⟨y, ys, rfl⟩
      rw [hys] at ih ⊢
      dsimp only
      rw [endsTop_comma_cons, glue_cons_cons]
      rw [List.nil_append] at ih
      simp only [List.cons_append, List.append_assoc]
      rw [ih]
  | case10 c rest con cur d q hnq hqn hp1 hp2 hcm ih =>
    have hq0 : q = none := Option.isNone_iff_eq_none.mp hqn
    subst hq0
    rw [splitScan_other c rest con cur d (by simpa using hnq) hp1 hp2 (by simpa using hcm),
      endsTop_other c rest d (by simpa using hnq) hp1 hp2 (by simpa using hcm), ih]
    simp
  | case11 c rest con cur d q hnq hqs ih =>
    obtain ⟨qc, hqc⟩ : ∃ qc, q = some qc := by
      cases q with
      | none => simp at hqs
      | some v => exact ⟨v, rfl⟩
    subst hqc
    rw [splitScan_inQuote c qc rest con cur d (by simpa using hnq),
      endsTop_inQuote c qc rest d (by simpa using hnq), ih]
    simp

/-- C1: for every input string, every comma that `_split_by_comma` emits as a
clause boundary occurs at a position where the scan's paren-depth counter is
zero and no single- or double-quoted literal is open (the scan state after the
consumed prefix is `(0, none)`), and the character at that position is indeed a
comma.  This holds for arbitrary nesting depth, either quote style, and with
doubled-quote escapes treated as literal quote characters. -/
theorem clause_splitter_boundary_invariant (text : List Char) :
    ∀ pre ∈ splitBoundaries text,
      scanState pre = (0, none) ∧ ∃ post, text = pre ++ ',' :: post := by
  intro pre hpre
  have h := splitScan_boundary_states text [] [] 0 none (by simp [scanState]) pre hpre
  simpa using h

/-- Concrete instance of `clause_splitter_boundary_invariant`: the splitter on
`a(b,c),'d,''e',f` emits a boundary right after the prefix `a(b,c)` (the commas
inside the parentheses and inside the quoted literal with a doubled-quote
escape are not boundaries), and there the scan state is neutral. -/
theorem clause_splitter_boundary_invariant_witness :
    "a(b,c)".data ∈ splitBoundaries ("a(b,c),'d,''e',f".data) ∧
      (scanState ("a(b,c)".data) = (0, none) ∧
        ∃ post, "a(b,c),'d,''e',f".data = "a(b,c)".data ++ ',' :: post) :=
  ⟨by decide,
    clause_splitter_boundary_invariant ("a(b,c),'d,''e',f".data) ("a(b,c)".data) (by decide)⟩

/-- C9: if the input does not end with a top-level (paren-depth-zero, unquoted)
comma, joining the clause list returned by `_split_by_comma` with single commas
reproduces the input exactly; and in general the rejoined clauses followed by a
single trailing comma in the ending-comma case always reproduce the input, so
the splitter never drops, adds, or reorders any character other than the
separator commas themselves. -/
theorem clause_splitter_join_roundtrip (text : List Char) :
    (endsTop text 0 none = false → glue (splitByComma text) = text) ∧
      glue (splitByComma text) ++ (if endsTop text 0 none then [','] else []) = text := by
  have h := glue_splitScan text [] [] 0 none
  simp only [List.nil_append] at h
  constructor
  · intro he
    rw [he] at h
    simpa using h
  · exact h

/-- Concrete instance of `clause_splitter_join_roundtrip`: the input
`a(b,c),'d,''e',f` does not end in a top-level comma, and rejoining its clause
list with commas reproduces it exactly. -/
theorem clause_splitter_join_roundtrip_witness :
    endsTop ("a(b,c),'d,''e',f".data) 0 none = false ∧
      glue (splitByComma ("a(b,c),'d,''e',f".data)) = "a(b,c),'d,''e',f".data :=
  ⟨by decide,
    (clause_splitter_join_roundtrip ("a(b,c),'d,''e',f".data)).1 (by decide)⟩

/-! ### Lemmas about the Line Rewriter and the Chunk Writer -/

/-- C5: `convert_insert_line` applies its substitution rules in the fixed
documented order — backtick identifiers to double quotes, bit literals to
plain quoted digits, escaped apostrophes to doubled apostrophes, unescaped
null markers to `NULL`, null-byte escapes to nothing, doubled backslashes to
single ones, then the trailing-semicolon guarantee — and on the concrete line
with a backtick identifier, an escaped quote, a null marker and a bit literal
it produces exactly the documented output. -/
theorem line_rewriter_fixed_order :
    (∀ line : String, convert_insert_line line =
      if isInsertLine (rstripCRLF line.data) then
        some (String.mk (ensureSemi
          (replacePair '\\' '\\' ['\\']
            (replacePair '\\' '0' []
              (subNullMarker none
                (replacePair '\\' '\'' ['\'', '\'']
                  (subBit '"' none
                    (subBit '\'' none
                      (subBackticks (rstripCRLF line.data))))))))))
      else none) ∧
    convert_insert_line ("INSERT INTO `t` VALUES (1, 'x\\'y', \\N, b'1');") =
      some ("INSERT INTO \"t\" VALUES (1, 'x''y', NULL, '1');") :=
  ⟨fun _ => rfl, by decide⟩

theorem pfStep_none (budget : Nat) (st : PFState) (line : String)
    (h : convert_insert_line line = none) : pfStep budget st line = st := by
  unfold pfStep
  rw [h]

theorem foldl_pfStep_none (budget : Nat) :
    ∀ (lines : List String) (st : PFState),
      (∀ l ∈ lines, convert_insert_line l = none) →
      lines.foldl (pfStep budget) st = st := by
  intro lines
  induction lines with
  | nil => intro st _; rfl
  | cons l ls ih =>
    intro st h
    rw [List.foldl_cons, pfStep_none budget st l (h l (by simp)), ih st (fun x hx => h x (by simp [hx]))]

theorem pfStep_size_inv (budget : Nat) (st : PFState) (line : String)
    (h : st.curSize = (st.cur.stmts.map lineBytes).sum) :
    (pfStep budget st line).curSize = ((pfStep budget st line).cur.stmts.map lineBytes).sum := by
  rcases hc : convert_insert_line line with _ | conv
  · simp only [pfStep, hc]
    exact h
  · simp only [pfStep, hc]
    split
    · simp
    · simp [h]

theorem foldl_pfStep_size_inv (budget : Nat) :
    ∀ (lines : List String) (st : PFState),
      st.curSize = (st.cur.stmts.map lineBytes).sum →
      (lines.foldl (pfStep budget) st).curSize =
        ((lines.foldl (pfStep budget) st).cur.stmts.map lineBytes).sum := by
  intro lines
  induction lines with
  | nil => intro st h; exact h
  | cons l ls ih =>
    intro st h
    rw [List.foldl_cons]
    exact ih _ (pfStep_size_inv budget st l h)

theorem lineBytes_pos (s : String) : 0 < lineBytes s := by
  unfold lineBytes
  omega

theorem stmts_sum_pos_iff (l : List String) :
    0 < (l.map lineBytes).sum ↔ l ≠ [] := by
  cases l with
  | nil => simp
  | cons s t =>
    simp only [List.map_cons, List.sum_cons]
    have := lineBytes_pos s
    constructor
    · intro _
      simp
    · intro _
      omega

set_option maxRecDepth 4000 in
/-- C2: for every reachable state of the chunk writer, processing a further
convertible line finalizes the current chunk and opens the next one (the
chunk number increments and the open chunk joins the finalized list) exactly
when the line's byte length including its terminator, added to the chunk's
accumulated byte size, exceeds the byte budget AND the open chunk already
holds at least one statement.  In particular, with budget 100 and two
converted lines of 60 bytes each the second line starts a new chunk, and a
single statement larger than the whole budget is still written whole into
its own chunk. -/
theorem chunk_writer_boundary_condition :
    (∀ (budget : Nat) (lines : List String) (line conv : String),
      convert_insert_line line = some conv →
      (((pfStep budget (lines.foldl (pfStep budget) pfInit) line).cur.number
            = (lines.foldl (pfStep budget) pfInit).cur.number + 1 ∧
          (pfStep budget (lines.foldl (pfStep budget) pfInit) line).done
            = (lines.foldl (pfStep budget) pfInit).done
                ++ [(lines.foldl (pfStep budget) pfInit).cur])
        ↔ (budget < (lines.foldl (pfStep budget) pfInit).curSize + lineBytes conv ∧
            (lines.foldl (pfStep budget) pfInit).cur.stmts ≠ []))) ∧
    process_file 100
        ["INSERT INTO t VALUES ('xxxxxxxxxxxxxxxxxxxxxxxxxxxxxxxxx');",
         "INSERT INTO t VALUES ('yyyyyyyyyyyyyyyyyyyyyyyyyyyyyyyyy');"] =
      ⟨[⟨1, ["INSERT INTO t VALUES ('xxxxxxxxxxxxxxxxxxxxxxxxxxxxxxxxx');"]⟩,
        ⟨2, ["INSERT INTO t VALUES ('yyyyyyyyyyyyyyyyyyyyyyyyyyyyyyyyy');"]⟩], 2, 2⟩ ∧
    process_file 100
        ["INSERT INTO t VALUES ('zzzzzzzzzzzzzzzzzzzzzzzzzzzzzzzzzzzzzzzzzzz" ++
         "zzzzzzzzzzzzzzzzzzzzzzzzzzzzzzzzzzzzzzzzzzzzzzzzzzzzzzzzzzzzzzzzz');"] =
      ⟨[⟨1, ["INSERT INTO t VALUES ('zzzzzzzzzzzzzzzzzzzzzzzzzzzzzzzzzzzzzzzzzzz" ++
             "zzzzzzzzzzzzzzzzzzzzzzzzzzzzzzzzzzzzzzzzzzzzzzzzzzzzzzzzzzzzzzzzz');"]⟩],
        1, 1⟩ := by
  refine ⟨?_, by decide, by decide⟩
  intro budget lines line conv hconv
  have hsize : (lines.foldl (pfStep budget) pfInit).curSize =
      ((lines.foldl (pfStep budget) pfInit).cur.stmts.map lineBytes).sum :=
    foldl_pfStep_size_inv budget lines pfInit (by simp [pfInit])
  have hpos : 0 < (lines.foldl (pfStep budget) pfInit).curSize ↔
      (lines.foldl (pfStep budget) pfInit).cur.stmts ≠ [] := by
    rw [hsize]
    exact stmts_sum_pos_iff _
  simp only [pfStep, hconv]
  split
  case isTrue hc =>
    exact ⟨fun _ => ⟨hc.1, hpos.mp hc.2⟩, fun _ => ⟨rfl, rfl⟩⟩
  case isFalse hc =>
    exact ⟨fun hl => absurd hl.1 (by simp), fun hr => (hc ⟨hr.1, hpos.mpr hr.2⟩).elim⟩

set_option maxRecDepth 4000 in
/-- Concrete instance of `chunk_writer_boundary_condition`: after one
59-character statement (60 bytes with terminator) under budget 100, a second
such line opens a new chunk, and the boundary condition is satisfied. -/
theorem chunk_writer_boundary_condition_witness :
    convert_insert_line demoLine = some demoLine ∧
      (((pfStep 100 demoChunkSt demoLine).cur.number = demoChunkSt.cur.number + 1 ∧
          (pfStep 100 demoChunkSt demoLine).done = demoChunkSt.done ++ [demoChunkSt.cur])
        ↔ (100 < demoChunkSt.curSize + lineBytes demoLine ∧ demoChunkSt.cur.stmts ≠ [])) :=
  ⟨by decide,
    chunk_writer_boundary_condition.1 100
      ["INSERT INTO t VALUES ('xxxxxxxxxxxxxxxxxxxxxxxxxxxxxxxxx');"]
      demoLine demoLine (by decide)⟩

theorem pfStep_prefix (budget : Nat) (st : PFState) (line : String) :
    ((pfStep budget st line).done.map Chunk.stmts).join ++ (pfStep budget st line).cur.stmts
      = (((st.done.map Chunk.stmts).join ++ st.cur.stmts)
          ++ (convert_insert_line line).toList) := by
  rcases hc : convert_insert_line line with _ | conv
  · simp [pfStep, hc]
  · simp only [pfStep, hc]
    split
    · simp
    · simp

theorem foldl_pfStep_prefix (budget : Nat) :
    ∀ (lines : List String) (st : PFState),
      ((lines.foldl (pfStep budget) st).done.map Chunk.stmts).join
          ++ (lines.foldl (pfStep budget) st).cur.stmts
        = ((st.done.map Chunk.stmts).join ++ st.cur.stmts)
            ++ lines.filterMap convert_insert_line := by
  intro lines
  induction lines with
  | nil => intro st; simp
  | cons l ls ih =>
    intro st
    rw [List.foldl_cons, ih (pfStep budget st l), pfStep_prefix budget st l]
    rcases hc : convert_insert_line l with _ | conv
    · simp [List.filterMap_cons, hc]
    · simp [List.filterMap_cons, hc]

/-- C3: for every input stream, concatenating the statements of all produced
data-chunk files in chunk order (headers and footers aside) yields exactly
the sequence of converted INSERT statements in input order: no statement is
duplicated, dropped, or split across two chunk files. -/
theorem chunk_files_reproduce_stream (budget : Nat) (lines : List String) :
    ((process_file budget lines).chunks.map Chunk.stmts).join
      = lines.filterMap convert_insert_line := by
  unfold process_file
  simp only [List.map_append, List.join_append]
  have h := foldl_pfStep_prefix budget lines pfInit
  simp only [pfInit] at h
  simpa using h

/-- C10: `process_file` always produces at least one chunk file; when no
input line converts to an INSERT statement, the result is exactly one file
numbered 1 whose text is just the header followed by the footer (zero data
statements), with a reported chunk count of 1 and zero total statements. -/
theorem process_file_always_one_chunk (budget : Nat) (lines : List String) (ts : String) :
    1 ≤ (process_file budget lines).chunks.length ∧
      ((∀ l ∈ lines, convert_insert_line l = none) →
        process_file budget lines = ⟨[⟨1, []⟩], 1, 0⟩ ∧
          (process_file budget lines).chunks.map (chunkFileText ts)
            = [headerText 1 ts ++ footerText]) := by
  constructor
  · unfold process_file
    simp
  · intro hnone
    have h : lines.foldl (pfStep budget) pfInit = pfInit :=
      foldl_pfStep_none budget lines pfInit hnone
    unfold process_file
    rw [h]
    constructor
    · rfl
    · simp [pfInit, chunkFileText, String.join, String.append_empty]

/-- Concrete instance of `process_file_always_one_chunk`: an input with a
comment line and a session `SET` line (no INSERT at all) yields exactly one
header-plus-footer chunk file numbered 1 and zero statements. -/
theorem process_file_always_one_chunk_witness :
    (∀ l ∈ ["-- a comment", "SET NAMES utf8;"], convert_insert_line l = none) ∧
      (1 ≤ (process_file 100 ["-- a comment", "SET NAMES utf8;"]).chunks.length ∧
        (process_file 100 ["-- a comment", "SET NAMES utf8;"] = ⟨[⟨1, []⟩], 1, 0⟩ ∧
          (process_file 100 ["-- a comment", "SET NAMES utf8;"]).chunks.map (chunkFileText ("ts"))
            = [headerText 1 ("ts") ++ footerText])) :=
  ⟨by decide,
    ⟨(process_file_always_one_chunk 100 ["-- a comment", "SET NAMES utf8;"] "ts").1,
      (process_file_always_one_chunk 100 ["-- a comment", "SET NAMES utf8;"] "ts").2 (by decide)⟩⟩

/-! ### Lemmas about the Type Mapper and the Column Converter -/

/-- C7: the Type Mapper maps `int(11)` to `integer`, `decimal(10,2)` to
`numeric(10,2)` preserving precision and scale, and `enum('a','b')` to the
bounded string type `varchar(255)` together with the extracted value list
`['a','b']`, which the Column Converter turns into a
`CHECK ("c" IN ('a', 'b'))` clause; and any token matching no special case
and no table pattern is returned unchanged (after normalization) with a
warning recorded — the conversion never fails. -/
theorem type_mapper_mappings :
    convert_data_type ("int(11)") = ("integer", none, []) ∧
    convert_data_type ("decimal(10,2)") = ("numeric(10,2)", none, []) ∧
    convert_data_type ("enum('a','b')") = ("varchar(255)", some ["a", "b"], []) ∧
    (convert_column_definition ("`c` enum('a','b')") ("\"t\"")).colDef =
      some ("\"c\" varchar(255) CHECK (\"c\" IN ('a', 'b'))") ∧
    (∀ s : String,
      decimalSpecial (trimChars (s.data.map Char.toLower)) = none →
      floatSpecial (trimChars (s.data.map Char.toLower)) = none →
      trimChars (s.data.map Char.toLower) ≠ "json".data →
      enumSpecialVals (trimChars (s.data.map Char.toLower)) = none →
      stripLitEq ("set(".data) (trimChars (s.data.map Char.toLower)) = none →
      typeTableLookup (trimChars (s.data.map Char.toLower)) = none →
      convert_data_type s =
        (String.mk (trimChars (s.data.map Char.toLower)), none,
         [unknownTypeWarning (String.mk (trimChars (s.data.map Char.toLower)))])) := by
  refine ⟨by decide, by decide, by decide, by decide, ?_⟩
  intro s h1 h2 h3 h4 h5 h6
  simp only [convert_data_type, h1, h2, h4, h5, h6]
  simp [h3]

/-- Concrete instance of the never-fail fallback of `type_mapper_mappings`:
the token `geometry` matches nothing and is passed through with a warning. -/
theorem type_mapper_mappings_witness :
    decimalSpecial (trimChars (("geometry" : String).data.map Char.toLower)) = none ∧
    floatSpecial (trimChars (("geometry" : String).data.map Char.toLower)) = none ∧
    trimChars (("geometry" : String).data.map Char.toLower) ≠ "json".data ∧
    enumSpecialVals (trimChars (("geometry" : String).data.map Char.toLower)) = none ∧
    stripLitEq ("set(".data) (trimChars (("geometry" : String).data.map Char.toLower)) = none ∧
    typeTableLookup (trimChars (("geometry" : String).data.map Char.toLower)) = none ∧
    convert_data_type ("geometry") =
      (String.mk (trimChars (("geometry" : String).data.map Char.toLower)), none,
       [unknownTypeWarning (String.mk (trimChars (("geometry" : String).data.map Char.toLower)))]) :=
  ⟨by decide, by decide, by decide, by decide, by decide, by decide,
    type_mapper_mappings.2.2.2.2 ("geometry") (by decide) (by decide) (by decide)
      (by decide) (by decide) (by decide)⟩

theorem containsSeq_append_right (pat b : List Char) (h : containsSeq pat b = true) :
    ∀ a : List Char, containsSeq pat (a ++ b) = true := by
  intro a
  induction a with
  | nil => simpa using h
  | cons c cs ih =>
    rw [List.cons_append, containsSeq]
    rw [ih]
    simp

theorem autoColBase_not_null (tbl : String) (nm g1 : List Char) :
    containsSeq ("NOT NULL".data) (autoColBase tbl nm g1).data = true := by
  unfold autoColBase
  split
  case isTrue h => exact h
  case isFalse h =>
    have hb : (autoColRaw tbl nm g1 ++ " NOT NULL").data =
        (autoColRaw tbl nm g1).data ++ (" NOT NULL" : String).data := by
      simp [String.data_append]
    rw [hb]
    exact containsSeq_append_right _ _ (by decide) _

/-- C6: for every column clause carrying the auto-increment marker (and
parsing as a column), the converter emits exactly one sequence declaration
named deterministically from the table and column names, rewrites the
emitted fragment so that its default references that sequence — discarding
any earlier default — and the fragment contains `NOT NULL`; only a `CHECK`
suffix may follow. -/
theorem auto_increment_column (item tbl : String) (nm rest0 g1 : List Char)
    (hcol : colMatch (trimChars item.data) = some (nm, rest0))
    (htype : typeMatch (subRemove tryCollate (subRemove tryCharSet rest0)) = some g1)
    (hauto : searchAutoInc (subRemove tryCollate (subRemove tryCharSet rest0)) = true) :
    (convert_column_definition item tbl).seqs =
      ["CREATE SEQUENCE " ++ autoSeqName tbl nm ++ ";"] ∧
    (∃ chk : String,
      (convert_column_definition item tbl).colDef = some (autoColBase tbl nm g1 ++ chk)) ∧
    containsSeq ("NOT NULL".data) (autoColBase tbl nm g1).data = true := by
  refine ⟨?_, ?_, autoColBase_not_null tbl nm g1⟩
  · simp only [convert_column_definition, hcol, htype, hauto]
    rfl
  · simp only [convert_column_definition, hcol, htype, hauto]
    rcases hv : (convert_data_type (String.mk (trimChars
        (subRemove (fun l => stripLitEq (" UNSIGNED".data) l) g1)))).2.1 with _ | vs
    · refine ⟨"", ?_⟩
      simp only [hv, autoColBase, autoColRaw, autoSeqName]
      simp
    · by_cases he : vs.isEmpty
      · refine ⟨"", ?_⟩
        simp only [hv, he, autoColBase, autoColRaw, autoSeqName]
        simp [he]
      · refine ⟨" CHECK (" ++ quote_identifier (String.mk nm) ++ " IN ('" ++
          String.intercalate ("', '") (vs.map (fun v => String.mk (escQuotes v.data))) ++
          "'))", ?_⟩
        simp only [hv, he, autoColBase, autoColRaw, autoSeqName]
        simp [he, String.append_assoc]

/-- Concrete instance of `auto_increment_column`: the clause
``​`id` int(11) NOT NULL AUTO_INCREMENT`` in table `"users"` yields exactly
the sequence `users_id_seq`, a default referencing it, and a forced
`NOT NULL`. -/
theorem auto_increment_column_witness :
    colMatch (trimChars (("`id` int(11) NOT NULL AUTO_INCREMENT" : String).data)) =
        some ("id".data, "int(11) NOT NULL AUTO_INCREMENT".data) ∧
    typeMatch (subRemove tryCollate
        (subRemove tryCharSet ("int(11) NOT NULL AUTO_INCREMENT".data))) =
      some ("int(11)".data) ∧
    searchAutoInc (subRemove tryCollate
        (subRemove tryCharSet ("int(11) NOT NULL AUTO_INCREMENT".data))) = true ∧
    ((convert_column_definition ("`id` int(11) NOT NULL AUTO_INCREMENT") ("\"users\"")).seqs =
        ["CREATE SEQUENCE " ++ autoSeqName ("\"users\"") ("id".data) ++ ";"] ∧
      (∃ chk : String,
        (convert_column_definition ("`id` int(11) NOT NULL AUTO_INCREMENT")
            ("\"users\"")).colDef =
          some (autoColBase ("\"users\"") ("id".data) ("int(11)".data) ++ chk)) ∧
      containsSeq ("NOT NULL".data)
        (autoColBase ("\"users\"") ("id".data) ("int(11)".data)).data = true) :=
  ⟨by decide, by decide, by decide,
    auto_increment_column ("`id` int(11) NOT NULL AUTO_INCREMENT") ("\"users\"")
      ("id".data) ("int(11) NOT NULL AUTO_INCREMENT".data) ("int(11)".data)
      (by decide) (by decide) (by decide)⟩

/-- C8 counterexample: a table-body clause (`???`) that matches none of the
recognized constraint keywords and does not parse as a column definition is
dropped and the remaining clauses are still processed — but NO warning is
recorded anywhere in the conversion context, contradicting the claim that
such a clause is dropped "with a warning". -/
theorem unparsable_clause_no_warning_counterexample :
    (convert_create_table
        ("CREATE TABLE `b` (\n  `y` int(11) NOT NULL,\n  ???,\n  `aid` int(11)\n);")
        emptyCtx).1 =
      ["CREATE TABLE \"b\" (\n    \"y\" integer NOT NULL,\n    \"aid\" integer\n);"] ∧
    (convert_create_table
        ("CREATE TABLE `b` (\n  `y` int(11) NOT NULL,\n  ???,\n  `aid` int(11)\n);")
        emptyCtx).2.warnings = [] := by
  constructor
  · decide
  · decide

/-- C8 (amended): every table-body clause that matches none of the
recognized constraint keywords (primary key, unique key, key, constraint)
and is not parseable as a column definition is dropped silently — without
any warning — and processing of the remaining clauses of the table
continues unchanged (the whole table is never aborted). -/
theorem unparsable_clause_dropped_silently (tbl : String) (acc : TableAcc × Ctx) (item : String)
    (h1 : isPrimaryKeyItem (trimChars item.data) = false)
    (h2 : isUniqueKeyItem (trimChars item.data) = false)
    (h3 : isKeyItem (trimChars item.data) = false)
    (h4 : isConstraintItem (trimChars item.data) = false)
    (h5 : convert_column_definition (String.mk (trimChars item.data)) tbl = ⟨none, [], [], []⟩) :
    ∀ pre post : List String,
      (pre ++ item :: post).foldl (processItem tbl) acc =
        (pre ++ post).foldl (processItem tbl) acc := by
  have hstep : ∀ st : TableAcc × Ctx, processItem tbl st item = st := by
    intro st
    unfold processItem
    by_cases he : (trimChars item.data).isEmpty
    · simp [he]
    · simp [he, h1, h2, h3, h4, h5]
  intro pre post
  rw [List.foldl_append, List.foldl_append, List.foldl_cons, hstep]

/-- Concrete instance of `unparsable_clause_dropped_silently`: dropping the
clause `???` between two column clauses leaves the whole fold unchanged. -/
theorem unparsable_clause_dropped_silently_witness :
    isPrimaryKeyItem (trimChars (("???" : String).data)) = false ∧
    isUniqueKeyItem (trimChars (("???" : String).data)) = false ∧
    isKeyItem (trimChars (("???" : String).data)) = false ∧
    isConstraintItem (trimChars (("???" : String).data)) = false ∧
    convert_column_definition (String.mk (trimChars (("???" : String).data))) ("\"b\"") =
      ⟨none, [], [], []⟩ ∧
    (["`y` int(11)"] ++ ("???" : String) :: ["`aid` int(11)"]).foldl
        (processItem ("\"b\"")) (⟨[], none⟩, emptyCtx) =
      (["`y` int(11)"] ++ ["`aid` int(11)"]).foldl (processItem ("\"b\"")) (⟨[], none⟩, emptyCtx) :=
  ⟨by decide, by decide, by decide, by decide, by decide,
    unparsable_clause_dropped_silently ("\"b\"") (⟨[], none⟩, emptyCtx) ("???")
      (by decide) (by decide) (by decide) (by decide) (by decide)
      (["`y` int(11)"]) (["`aid` int(11)"])⟩

/-! ### Lemmas about the Statement Assembler (foreign keys after tables) -/

theorem stripLitEq_append_self : ∀ l r : List Char, stripLitEq l (l ++ r) = some r := by
  intro l
  induction l with
  | nil => intro r; rfl
  | cons c cs ih => intro r; simp [stripLitEq, ih]

theorem stripLitEq_none_of_incompat :
    ∀ p a : List Char, incompatLit p a = true → ∀ r, stripLitEq p (a ++ r) = none := by
  intro p
  induction p with
  | nil => intro a h; simp [incompatLit] at h
  | cons x xs ih =>
    intro a h r
    cases a with
    | nil => simp [incompatLit] at h
    | cons y ys =>
      rw [incompatLit] at h
      by_cases hxy : x = y
      · rw [if_pos hxy] at h
        simp [stripLitEq, hxy, ih ys h r]
      · simp [stripLitEq, hxy]

theorem strStartsWith_append_false (p a : String)
    (h : incompatLit p.data a.data = true) (r : String) :
    strStartsWith p (a ++ r) = false := by
  unfold strStartsWith
  rw [String.data_append, stripLitEq_none_of_incompat p.data a.data h r.data]
  rfl

theorem mem_insertSorted (s x : String) :
    ∀ l : List String, s ∈ insertSorted x l → s = x ∨ s ∈ l := by
  intro l
  induction l with
  | nil => intro h; simp [insertSorted] at h; exact Or.inl h
  | cons y ys ih =>
    intro h
    rw [insertSorted] at h
    split at h
    · rcases List.mem_cons.mp h with h | h
      · exact Or.inl h
      · exact Or.inr h
    · rcases List.mem_cons.mp h with h | h
      · exact Or.inr (by simp [h])
      · rcases ih h with h | h
        · exact Or.inl h
        · exact Or.inr (by simp [h])

theorem mem_sortStrs (s : String) :
    ∀ l : List String, s ∈ sortStrs l → s ∈ l := by
  intro l
  induction l with
  | nil => intro h; simp [sortStrs] at h
  | cons x xs ih =>
    intro h
    rw [sortStrs] at h
    rcases mem_insertSorted s x (sortStrs xs) h with h | h
    · simp [h]
    · exact List.mem_cons_of_mem _ (ih h)

theorem setAdd_pred {P : String → Prop} {l : List String} {x : String}
    (hl : ∀ s ∈ l, P s) (hx : P x) : ∀ s ∈ setAdd l x, P s := by
  intro s hs
  unfold setAdd at hs
  split at hs
  · exact hl s hs
  · rcases List.mem_append.mp hs with h | h
    · exact hl s h
    · simp at h
      exact h ▸ hx

theorem foldl_setAdd_pred {P : String → Prop} :
    ∀ (adds l : List String), (∀ s ∈ l, P s) → (∀ s ∈ adds, P s) →
      ∀ s ∈ adds.foldl setAdd l, P s := by
  intro adds
  induction adds with
  | nil => intro l hl _; simpa using hl
  | cons a as2 ih =>
    intro l hl ha
    rw [List.foldl_cons]
    exact ih (setAdd l a) (setAdd_pred hl (ha a (by simp)))
      (fun s hs => ha s (by simp [hs]))

theorem ccd_seqs_shape (item tbl : String) :
    ∀ s ∈ (convert_column_definition item tbl).seqs, ∃ r, s = "CREATE SEQUENCE " ++ r := by
  unfold convert_column_definition
  dsimp only
  split
  · simp
  · split
    · simp
    · dsimp only
      split
      · intro s hs
        simp at hs
        exact ⟨_, by rw [hs, String.append_assoc]⟩
      · simp

theorem ccd_comments_shape (item tbl : String) :
    ∀ s ∈ (convert_column_definition item tbl).comments,
      ∃ r, s = "COMMENT ON COLUMN " ++ r := by
  unfold convert_column_definition
  dsimp only
  split
  · simp
  · split
    · simp
    · dsimp only
      split
      · intro s hs
        simp at hs
        rw [hs]
        simp only [String.append_assoc]
        exact ⟨_, rfl⟩
      · simp

theorem processItem_ctxGood (tableName : String) (acc : TableAcc × Ctx) (item : String)
    (h : CtxGood acc.2) : CtxGood (processItem tableName acc item).2 := by
  obtain ⟨hseq, hidx, hcmt, hfk⟩ := h
  unfold processItem
  dsimp only
  split
  · exact ⟨hseq, hidx, hcmt, hfk⟩
  · split
    · split
      · exact ⟨hseq, hidx, hcmt, hfk⟩
      · exact ⟨hseq, hidx, hcmt, hfk⟩
    · split
      · split
        · refine ⟨hseq, ?_, hcmt, hfk⟩
          refine setAdd_pred hidx (Or.inl ?_)
          simp only [String.append_assoc]
          exact ⟨_, rfl⟩
        · exact ⟨hseq, hidx, hcmt, hfk⟩
      · split
        · split
          · refine ⟨hseq, ?_, hcmt, hfk⟩
            refine setAdd_pred hidx (Or.inr ?_)
            simp only [String.append_assoc]
            exact ⟨_, rfl⟩
          · exact ⟨hseq, hidx, hcmt, hfk⟩
        · split
          · split
            · refine ⟨hseq, hidx, hcmt, ?_⟩
              intro s hs
              rcases List.mem_append.mp hs with h | h
              · exact hfk s h
              · simp at h
                rw [h]
                simp only [String.append_assoc]
                exact ⟨_, rfl⟩
            · exact ⟨hseq, hidx, hcmt, hfk⟩
          · split
            · refine ⟨?_, hidx, ?_, hfk⟩
              · exact foldl_setAdd_pred _ _ hseq (ccd_seqs_shape _ _)
              · exact foldl_setAdd_pred _ _ hcmt (ccd_comments_shape _ _)
            · refine ⟨?_, hidx, ?_, hfk⟩
              · exact foldl_setAdd_pred _ _ hseq (ccd_seqs_shape _ _)
              · exact foldl_setAdd_pred _ _ hcmt (ccd_comments_shape _ _)

theorem foldl_processItem_ctxGood (tableName : String) :
    ∀ (items : List String) (acc : TableAcc × Ctx), CtxGood acc.2 →
      CtxGood (items.foldl (processItem tableName) acc).2 := by
  intro items
  induction items with
  | nil => intro acc h; exact h
  | cons it its ih =>
    intro acc h
    rw [List.foldl_cons]
    exact ih _ (processItem_ctxGood tableName acc it h)

theorem convert_create_table_ctxGood (stmt : String) (ctx : Ctx) (h : CtxGood ctx) :
    CtxGood (convert_create_table stmt ctx).2 := by
  unfold convert_create_table
  split
  · exact h
  · split
    · exact h
    · dsimp only
      exact foldl_processItem_ctxGood _ _ (⟨[], none⟩, ctx) h

theorem convert_create_table_tables (stmt : String) (ctx : Ctx) :
    ∀ s ∈ (convert_create_table stmt ctx).1, ∃ r, s = "CREATE TABLE " ++ r := by
  unfold convert_create_table
  split
  · simp
  · split
    · simp
    · dsimp only
      intro s hs
      simp at hs
      rw [hs]
      simp only [String.append_assoc]
      exact ⟨_, rfl⟩

theorem processSchemaStmts_good (stmts : List String) :
    CtxGood (processSchemaStmts stmts).2 ∧
      ∀ s ∈ (processSchemaStmts stmts).1, ∃ r, s = "CREATE TABLE " ++ r := by
  unfold processSchemaStmts
  suffices h : ∀ (pr : List String × Ctx), CtxGood pr.2 →
      (∀ s ∈ pr.1, ∃ r, s = "CREATE TABLE " ++ r) →
      CtxGood (stmts.foldl (fun pr st =>
        let r := convert_create_table st pr.2
        (pr.1 ++ r.1, r.2)) pr).2 ∧
      ∀ s ∈ (stmts.foldl (fun pr st =>
        let r := convert_create_table st pr.2
        (pr.1 ++ r.1, r.2)) pr).1, ∃ r, s = "CREATE TABLE " ++ r by
    exact h ([], emptyCtx) ⟨by simp [emptyCtx], by simp [emptyCtx], by simp [emptyCtx],
      by simp [emptyCtx]⟩ (by simp)
  induction stmts with
  | nil => intro pr h1 h2; exact ⟨h1, h2⟩
  | cons st sts ih =>
    intro pr h1 h2
    rw [List.foldl_cons]
    refine ih _ (convert_create_table_ctxGood st pr.2 h1) ?_
    intro s hs
    dsimp only at hs
    rcases List.mem_append.mp hs with h | h
    · exact h2 s h
    · exact convert_create_table_tables st pr.2 s h

theorem index_lt_of_notin_right {A B : List String} {i : Nat} {s : String}
    (h : (A ++ B).get? i = some s) (hB : s ∉ B) : i < A.length := by
  by_contra hge
  push_neg at hge
  rw [List.get?_append_right hge] at h
  exact hB (List.get?_mem h)

theorem length_le_of_notin_left {A B : List String} {j : Nat} {s : String}
    (h : (A ++ B).get? j = some s) (hA : s ∉ A) : A.length ≤ j := by
  by_contra hlt
  push_neg at hlt
  rw [List.get?_append hlt] at h
  exact hA (List.get?_mem h)

theorem startsWith_false_of_shape {p a : String}
    (hinc : incompatLit p.data a.data = true) :
    ∀ s : String, (∃ r, s = a ++ r) → strStartsWith p s = false := by
  rintro s ⟨r, rfl⟩
  exact strStartsWith_append_false p a hinc r

/-- C4: for any input table ordering (including tables with mutual
foreign-key references declared in either order), every foreign-key
`ALTER TABLE` statement appears strictly after all `CREATE TABLE`
statements in the assembled schema output. -/
theorem fk_statements_after_create_tables (ts : String) (lines : List String)
    (i j : Nat) (s s' : String)
    (hi : (assembledSchema ts lines).get? i = some s)
    (hPs : strStartsWith ("CREATE TABLE ") s = true)
    (hj : (assembledSchema ts lines).get? j = some s')
    (hQs : strStartsWith ("ALTER TABLE ") s' = true) :
    i < j := by
  obtain ⟨⟨hseq, hidx, hcmt, hfk⟩, htab⟩ :=
    processSchemaStmts_good (gatherStatements lines)
  set R := processSchemaStmts (gatherStatements lines) with hRdef
  set A := headerSchemaLines ts ++ ["-- ===== SEQUENCES ====="]
      ++ sortStrs R.2.sequences
      ++ ["-- ===== TABLES ====="] ++ R.1
      ++ ["-- ===== INDEXES ====="] ++ sortStrs R.2.indexes
      ++ ["-- ===== FOREIGN KEYS =====",
          "-- 外键约束在所有表创建完成后添加,避免循环依赖问题"] with hAdef
  set B := R.2.foreignKeys ++ ["-- ===== COMMENTS ====="] ++ sortStrs R.2.comments
    with hBdef
  have hAB : assembledSchema ts lines = A ++ B := by
    rw [hAdef, hBdef]
    unfold assembledSchema
    rw [← hRdef]
    simp [List.append_assoc]
  rw [hAB] at hi hj
  have hnotQ : ∀ x ∈ A, strStartsWith ("ALTER TABLE ") x = false := by
    rw [hAdef]
    have Hhdr : ∀ x ∈ headerSchemaLines ts, strStartsWith ("ALTER TABLE ") x = false := by
      intro x hx
      unfold headerSchemaLines at hx
      simp only [List.mem_cons, List.not_mem_nil, or_false] at hx
      rcases hx with h | h | h | h | h | h <;>
        first
          | (subst h; decide)
          | (subst h; exact startsWith_false_of_shape (by decide) _ ⟨ts, rfl⟩)
    have Hb1 : ∀ x ∈ ["-- ===== SEQUENCES ====="],
        strStartsWith ("ALTER TABLE ") x = false := by
      intro x hx
      simp at hx
      subst hx
      decide
    have Hseqs : ∀ x ∈ sortStrs R.2.sequences,
        strStartsWith ("ALTER TABLE ") x = false := by
      intro x hx
      exact startsWith_false_of_shape (by decide) x (hseq x (mem_sortStrs x _ hx))
    have Hb2 : ∀ x ∈ ["-- ===== TABLES ====="],
        strStartsWith ("ALTER TABLE ") x = false := by
      intro x hx
      simp at hx
      subst hx
      decide
    have Htabs : ∀ x ∈ R.1, strStartsWith ("ALTER TABLE ") x = false := by
      intro x hx
      exact startsWith_false_of_shape (by decide) x (htab x hx)
    have Hb3 : ∀ x ∈ ["-- ===== INDEXES ====="],
        strStartsWith ("ALTER TABLE ") x = false := by
      intro x hx
      simp at hx
      subst hx
      decide
    have Hidxs : ∀ x ∈ sortStrs R.2.indexes,
        strStartsWith ("ALTER TABLE ") x = false := by
      intro x hx
      rcases hidx x (mem_sortStrs x _ hx) with h | h
      · exact startsWith_false_of_shape (by decide) x h
      · exact startsWith_false_of_shape (by decide) x h
    have Hb45 : ∀ x ∈ ["-- ===== FOREIGN KEYS =====",
        "-- 外键约束在所有表创建完成后添加,避免循环依赖问题"],
        strStartsWith ("ALTER TABLE ") x = false := by
      intro x hx
      simp at hx
      rcases hx with h | h <;> (subst h; decide)
    exact List.forall_mem_append.mpr
      ⟨List.forall_mem_append.mpr
        ⟨List.forall_mem_append.mpr
          ⟨List.forall_mem_append.mpr
            ⟨List.forall_mem_append.mpr
              ⟨List.forall_mem_append.mpr
                ⟨List.forall_mem_append.mpr ⟨Hhdr, Hb1⟩, Hseqs⟩, Hb2⟩, Htabs⟩,
              Hb3⟩, Hidxs⟩, Hb45⟩
  have hnotP : ∀ y ∈ B, strStartsWith ("CREATE TABLE ") y = false := by
    rw [hBdef]
    have Hfks : ∀ y ∈ R.2.foreignKeys, strStartsWith ("CREATE TABLE ") y = false := by
      intro y hy
      exact startsWith_false_of_shape (by decide) y (hfk y hy)
    have Hb6 : ∀ y ∈ ["-- ===== COMMENTS ====="],
        strStartsWith ("CREATE TABLE ") y = false := by
      intro y hy
      simp at hy
      subst hy
      decide
    have Hcmts : ∀ y ∈ sortStrs R.2.comments,
        strStartsWith ("CREATE TABLE ") y = false := by
      intro y hy
      exact startsWith_false_of_shape (by decide) y (hcmt y (mem_sortStrs y _ hy))
    exact List.forall_mem_append.mpr
      ⟨List.forall_mem_append.mpr ⟨Hfks, Hb6⟩, Hcmts⟩
  have h1 : i < A.length := by
    refine index_lt_of_notin_right hi (fun hmem => ?_)
    rw [hnotP s hmem] at hPs
    exact absurd hPs (by simp)
  have h2 : A.length ≤ j := by
    refine length_le_of_notin_left hj (fun hmem => ?_)
    rw [hnotQ s' hmem] at hQs
    exact absurd hQs (by simp)
  omega

/-- Concrete instance of `fk_statements_after_create_tables`: with two
mutually referencing tables, the first `CREATE TABLE` sits at index 8 of the
assembled output and the first foreign-key `ALTER TABLE` at index 13, so the
foreign key comes strictly later. -/
theorem fk_statements_after_create_tables_witness :
    (assembledSchema ("TS") fkDemoLines).get? 8 =
        some ("CREATE TABLE \"a\" (\n    \"x\" integer NOT NULL,\n    \"bid\" integer\n);") ∧
    strStartsWith ("CREATE TABLE ")
        ("CREATE TABLE \"a\" (\n    \"x\" integer NOT NULL,\n    \"bid\" integer\n);") = true ∧
    (assembledSchema ("TS") fkDemoLines).get? 13 =
        some ("ALTER TABLE \"a\" ADD CONSTRAINT \"fk_a_b\" FOREIGN KEY (\"bid\") REFERENCES \"b\" (\"y\");") ∧
    strStartsWith ("ALTER TABLE ")
        ("ALTER TABLE \"a\" ADD CONSTRAINT \"fk_a_b\" FOREIGN KEY (\"bid\") REFERENCES \"b\" (\"y\");") = true ∧
    8 < 13 :=
  ⟨by decide, by decide, by decide, by decide,
    fk_statements_after_create_tables ("TS") fkDemoLines 8 13
      ("CREATE TABLE \"a\" (\n    \"x\" integer NOT NULL,\n    \"bid\" integer\n);")
      ("ALTER TABLE \"a\" ADD CONSTRAINT \"fk_a_b\" FOREIGN KEY (\"bid\") REFERENCES \"b\" (\"y\");")
      (by decide) (by decide) (by decide) (by decide)⟩

end MPC
